import Mathlib

/-!
Verification of the zone-interaction engine of the hand-tracked musical
interface repository.  The Python sources are shallowly embedded:

* `roundHalfEven` models Python's `round` (banker's rounding) on exact
  rationals; screen coordinates are modelled as rationals, zone rectangles
  as integer 4-tuples `(x, y, width, height)`.
* `calculate_pitch_bend`, `calculate_initial_velocity` and
  `calculate_continuous_intensity` follow
  `src/expression_control/pitch_bend_processor.py` and
  `src/expression_control/velocity_intensity_processor.py`.
* `MidiState` with `send_note_on` / `send_note_off` / `send_pitch_bend` /
  `send_channel_pressure` / `send_control_change` follows
  `src/audio_output/midi_handler.py`; the arbitrary element returned by
  Python's `set.pop()` is modelled by an explicit `pick` function that is
  quantified over in the theorems.
* `NoteZone` follows `src/note_mapping/zone.py`, `buildRow`/`arrangeZones`
  follow the zone-arrangement part of
  `src/note_mapping/layout_generator.py`, and `process_hands_data` follows
  `src/note_mapping/interaction_logic.py` (Python object references to
  zones are modelled as indices into the zone list; dictionaries are
  modelled as association lists in insertion order).
-/

/-! ### Rounding: Python `round` is round-half-to-even -/

def roundHalfEven (q : ℚ) : ℤ :=
  if q + 1/2 = ((⌊q + 1/2⌋ : ℤ) : ℚ) ∧ ⌊q + 1/2⌋ % 2 ≠ 0 then ⌊q + 1/2⌋ - 1
  else ⌊q + 1/2⌋

/-! ### Expression mapping, from `src/expression_control/pitch_bend_processor.py`
and `src/expression_control/velocity_intensity_processor.py` -/

/-- `PitchBendProcessor._map_value` (no output clamp). -/
def pb_map_value (value from_low from_high to_low to_high : ℚ) : ℚ :=
  if from_low = from_high then to_low
  else to_low + (value - from_low) / (from_high - from_low) * (to_high - to_low)

def midi_bend_max_abs_value : ℤ := 8191

/-- `PitchBendProcessor.calculate_pitch_bend` (lines 44-91). -/
def calculate_pitch_bend (finger_x_position : ℚ) (zone_rect : ℤ × ℤ × ℤ × ℤ) : ℤ :=
  if zone_rect.2.2.1 = 0 then 0
  else
    max (-midi_bend_max_abs_value) (min midi_bend_max_abs_value
      (roundHalfEven (pb_map_value
        (max 0 (min 1 ((finger_x_position - (zone_rect.1 : ℚ)) / (zone_rect.2.2.1 : ℚ))))
        0 1 (-(midi_bend_max_abs_value : ℚ)) (midi_bend_max_abs_value : ℚ))))

def midi_min_value : ℤ := 0
def midi_max_value : ℤ := 127

/-- `VelocityIntensityProcessor._map_value` (clamps its output). -/
def vi_map_value (value from_low from_high to_low to_high : ℚ) : ℚ :=
  if from_low = from_high then (if to_low ≤ to_high then to_low else to_high)
  else
    if to_low < to_high then
      max to_low (min (to_low + (value - from_low) / (from_high - from_low) * (to_high - to_low)) to_high)
    else
      max to_high (min (to_low + (value - from_low) / (from_high - from_low) * (to_high - to_low)) to_low)

/-- `VelocityIntensityProcessor.calculate_initial_velocity` (lines 43-76). -/
def calculate_initial_velocity (finger_y_position : ℚ) (zone_rect : ℤ × ℤ × ℤ × ℤ) : ℤ :=
  if zone_rect.2.2.2 = 0 then midi_min_value
  else
    roundHalfEven (vi_map_value
      (max 0 (min 1 ((finger_y_position - (zone_rect.2.1 : ℚ)) / (zone_rect.2.2.2 : ℚ))))
      0 1 (midi_min_value : ℚ) (midi_max_value : ℚ))

/-- `VelocityIntensityProcessor.calculate_continuous_intensity` (lines 78-104);
the source body is identical to `calculate_initial_velocity`. -/
def calculate_continuous_intensity (finger_y_position : ℚ) (zone_rect : ℤ × ℤ × ℤ × ℤ) : ℤ :=
  if zone_rect.2.2.2 = 0 then midi_min_value
  else
    roundHalfEven (vi_map_value
      (max 0 (min 1 ((finger_y_position - (zone_rect.2.1 : ℚ)) / (zone_rect.2.2.2 : ℚ))))
      0 1 (midi_min_value : ℚ) (midi_max_value : ℚ))


/-! ### NoteZone, from `src/note_mapping/zone.py` -/

abbrev FingerId := String × ℕ

structure NoteZone where
  rect : ℤ × ℤ × ℤ × ℤ
  note_name : String
  note_midi_value : ℕ
  label : String
  is_active : Bool
  active_finger_id : Option FingerId
  base_color : ℕ × ℕ × ℕ
  highlight_color : ℕ × ℕ × ℕ
  current_color : ℕ × ℕ × ℕ
deriving DecidableEq

/-- `NoteZone.__init__` (the label defaults to the note name). -/
def mkNoteZone (x y width height : ℤ) (note_name : String) (note_midi_value : ℕ)
    (label : Option String) : NoteZone :=
  { rect := (x, y, width, height)
    note_name := note_name
    note_midi_value := note_midi_value
    label := label.getD note_name
    is_active := false
    active_finger_id := none
    base_color := (50, 50, 50)
    highlight_color := (0, 255, 0)
    current_color := (50, 50, 50) }

/-- `NoteZone.is_point_inside` (half-open on the max edges), on the bare rect. -/
def rect_contains (r : ℤ × ℤ × ℤ × ℤ) (point_x point_y : ℚ) : Bool :=
  decide ((r.1 : ℚ) ≤ point_x ∧ point_x < (r.1 : ℚ) + (r.2.2.1 : ℚ) ∧
    (r.2.1 : ℚ) ≤ point_y ∧ point_y < (r.2.1 : ℚ) + (r.2.2.2 : ℚ))

def NoteZone.is_point_inside (z : NoteZone) (point_x point_y : ℚ) : Bool :=
  rect_contains z.rect point_x point_y

/-- `NoteZone.activate` (lines 48-57): unconditional. -/
def NoteZone.activate (z : NoteZone) (finger_id : FingerId) : NoteZone :=
  { z with is_active := true, active_finger_id := some finger_id,
           current_color := z.highlight_color }

/-- `NoteZone.deactivate` (lines 60-67). -/
def NoteZone.deactivate (z : NoteZone) : NoteZone :=
  { z with is_active := false, active_finger_id := none, current_color := z.base_color }

/-- A zone already claimed by the left index finger, for the C6 counterexample. -/
def zoneClaimedByLeft : NoteZone := (mkNoteZone 0 0 100 100 "C4" 60 none).activate ("Left", 8)

/-! ### Zone arrangement, from `src/note_mapping/layout_generator.py`
(`generate_layout`, lines 151-208: `row_counts[i % num_rows] += 1` accumulates
the per-row counts round-robin, then the rows are filled with the notes in
list order, `current_note_index` advancing sequentially). -/

/-- `row_counts[r]` after the `for i in range(n): row_counts[i % 2] += 1` loop. -/
def rowCount (n r : ℕ) : ℕ := ((List.range n).filter (fun i => decide (i % 2 = r))).length

/-- The inner `for i_col in range(notes_in_current_row)` loop of `generate_layout`. -/
def buildRow : List (String × ℕ) → ℕ → ℕ → ℚ → ℚ → ℚ → List NoteZone
  | [], _, _, _, _, _ => []
  | (note_name, note_midi) :: rest, i_col, i_row, zone_width, row_height, padding =>
    mkNoteZone ⌊padding + (i_col : ℚ) * zone_width⌋ ⌊padding + (i_row : ℚ) * row_height⌋
        ⌊zone_width⌋ ⌊row_height⌋ note_name note_midi (some note_name) ::
      buildRow rest (i_col + 1) i_row zone_width row_height padding

/-- The zone-arrangement part of `generate_layout` (two rows). -/
def arrangeZones (notes_to_display : List (String × ℕ)) (screen_width screen_height padding : ℚ) :
    List NoteZone :=
  if notes_to_display.length = 0 then []
  else
    (if rowCount notes_to_display.length 0 = 0 then [] else
      buildRow (notes_to_display.take (rowCount notes_to_display.length 0)) 0 0
        ((screen_width - 2 * padding) / (rowCount notes_to_display.length 0 : ℚ))
        ((screen_height - 2 * padding) / 2) padding) ++
    (if rowCount notes_to_display.length 1 = 0 then [] else
      buildRow (notes_to_display.drop (rowCount notes_to_display.length 0)) 0 1
        ((screen_width - 2 * padding) / (rowCount notes_to_display.length 1 : ℚ))
        ((screen_height - 2 * padding) / 2) padding)

/-- The three-note list used to exhibit the C7 counterexample. -/
def notesC7 : List (String × ℕ) := [("C4", 60), ("C#4", 61), ("D4", 62)]

/-! ### MidiHandler, from `src/audio_output/midi_handler.py` -/

structure MidiState where
  portOpen : Bool
  available_channels : Finset ℕ
  active_note_channels : List (FingerId × ℕ)
deriving DecidableEq

/-- A freshly constructed `MidiHandler` with an open port and a valid
configured channel range `[lo, hi]`. -/
def initMidi (lo hi : ℕ) : MidiState :=
  { portOpen := true, available_channels := Finset.Icc lo hi, active_note_channels := [] }

/-- Dictionary lookup `active_note_channels[finger_id]`. -/
def findChan (l : List (FingerId × ℕ)) (finger_id : FingerId) : Option ℕ :=
  (l.find? (fun p => decide (p.1 = finger_id))).map (fun p => p.2)

inductive MidiMsg
  | note_on (note : ℕ) (velocity : ℤ) (channel : ℕ)
  | note_off (note : ℕ) (velocity : ℤ) (channel : ℕ)
  | pitchwheel (pitch : ℤ) (channel : ℕ)
  | aftertouch (value : ℤ) (channel : ℕ)
  | control_change (control : ℕ) (value : ℤ) (channel : ℕ)
deriving DecidableEq

/-- `MidiHandler.send_note_on` (lines 98-132); `pick` models the arbitrary
element returned by `set.pop()`. -/
def send_note_on (pick : Finset ℕ → ℕ) (s : MidiState) (note_midi_value : ℕ)
    (velocity : ℤ) (finger_id : FingerId) : MidiState × List MidiMsg :=
  if s.portOpen = false then (s, [])
  else
    match findChan s.active_note_channels finger_id with
    | some assigned_channel =>
      (s, [MidiMsg.note_on note_midi_value velocity (assigned_channel - 1)])
    | none =>
      if s.available_channels.Nonempty then
        let assigned_channel := pick s.available_channels
        ({ portOpen := s.portOpen
           available_channels := s.available_channels.erase assigned_channel
           active_note_channels := s.active_note_channels ++ [(finger_id, assigned_channel)] },
         [MidiMsg.note_on note_midi_value velocity (assigned_channel - 1)])
      else (s, [])

/-- `MidiHandler.send_note_off` (lines 134-154). -/
def send_note_off (s : MidiState) (note_midi_value : ℕ) (finger_id : FingerId) :
    MidiState × List MidiMsg :=
  if s.portOpen = false then (s, [])
  else
    match findChan s.active_note_channels finger_id with
    | some assigned_channel =>
      ({ portOpen := s.portOpen
         available_channels := insert assigned_channel s.available_channels
         active_note_channels := s.active_note_channels.filter (fun p => decide (p.1 ≠ finger_id)) },
       [MidiMsg.note_off note_midi_value 0 (assigned_channel - 1)])
    | none => (s, [])

/-- `MidiHandler.send_pitch_bend` (lines 156-173). -/
def send_pitch_bend (s : MidiState) (bend_value : ℤ) (finger_id : FingerId) :
    MidiState × List MidiMsg :=
  if s.portOpen = false then (s, [])
  else
    match findChan s.active_note_channels finger_id with
    | some assigned_channel => (s, [MidiMsg.pitchwheel bend_value (assigned_channel - 1)])
    | none => (s, [])

/-- `MidiHandler.send_channel_pressure` (lines 176-196). -/
def send_channel_pressure (s : MidiState) (pressure_value : ℤ) (finger_id : FingerId) :
    MidiState × List MidiMsg :=
  if s.portOpen = false then (s, [])
  else
    match findChan s.active_note_channels finger_id with
    | some assigned_channel => (s, [MidiMsg.aftertouch pressure_value (assigned_channel - 1)])
    | none => (s, [])

/-- `MidiHandler.send_control_change` (lines 198-215). -/
def send_control_change (s : MidiState) (cc_number : ℕ) (cc_value : ℤ) (finger_id : FingerId) :
    MidiState × List MidiMsg :=
  if s.portOpen = false then (s, [])
  else
    match findChan s.active_note_channels finger_id with
    | some assigned_channel =>
      (s, [MidiMsg.control_change cc_number cc_value (assigned_channel - 1)])
    | none => (s, [])

/-- One element of a call sequence against the handler. -/
inductive MidiCall
  | noteOn (note : ℕ) (velocity : ℤ) (finger_id : FingerId)
  | noteOff (note : ℕ) (finger_id : FingerId)

def midiStep (pick : Finset ℕ → ℕ) (s : MidiState) : MidiCall → MidiState
  | MidiCall.noteOn n v f => (send_note_on pick s n v f).1
  | MidiCall.noteOff n f => (send_note_off s n f).1

def midiRun (pick : Finset ℕ → ℕ) (s : MidiState) (calls : List MidiCall) : MidiState :=
  calls.foldl (midiStep pick) s

/-- The channels currently assigned to fingers, in insertion order. -/
def chanList (s : MidiState) : List ℕ := s.active_note_channels.map (fun p => p.2)

/-- A concrete `set.pop()` choice (the minimum), used by witnesses. -/
def pickMin (A : Finset ℕ) : ℕ := if h : A.Nonempty then A.min' h else 0

/-- The channel-pool invariant of the handler: distinct keys, distinct
channels, pool and assigned channels disjoint, together the full range. -/
def MidiInv (lo hi : ℕ) (s : MidiState) : Prop :=
  List.Pairwise (fun p q => p.1 ≠ q.1 ∧ p.2 ≠ q.2) s.active_note_channels ∧
  Disjoint s.available_channels (chanList s).toFinset ∧
  s.available_channels ∪ (chanList s).toFinset = Finset.Icc lo hi

/-! ### InteractionManager, from `src/note_mapping/interaction_logic.py`.
Zones are mutable Python objects shared between the zone list and the
active-note bindings; the heap is modelled by the zone list, an object
reference by an index into it. -/

structure Landmark where
  id : ℕ
  x : ℚ
  y : ℚ
  z : ℚ
deriving DecidableEq

structure Hand where
  handedness : String
  finger_states : List (String × String)
  landmarks : List Landmark
deriving DecidableEq

def FINGER_TIP_LANDMARKS : List (String × ℕ) :=
  [("THUMB", 4), ("INDEX", 8), ("MIDDLE", 12), ("RING", 16), ("PINKY", 20)]

/-- `LANDMARK_ID_TO_FINGER_NAME.get`. -/
def landmark_id_to_finger_name (tip_id : ℕ) : Option String :=
  (FINGER_TIP_LANDMARKS.find? (fun p => decide (p.2 = tip_id))).map (fun p => p.1)

/-- Python `dict.get` on a string-keyed dictionary. -/
def lookupStr (l : List (String × String)) (k : String) : Option String :=
  (l.find? (fun p => decide (p.1 = k))).map (fun p => p.2)

/-- One entry of `self.active_notes`; `zoneIdx` is the reference to the zone. -/
structure Binding where
  zoneIdx : ℕ
  initial_y : ℚ
  midi_note : ℕ
deriving DecidableEq

structure IMState where
  zones : List NoteZone
  active_notes : List (FingerId × Binding)
deriving DecidableEq

def lookupNote (l : List (FingerId × Binding)) (f : FingerId) : Option Binding :=
  (l.find? (fun p => decide (p.1 = f))).map (fun p => p.2)

def defaultNoteZone : NoteZone := mkNoteZone 0 0 0 0 "" 0 none

def getZone (zones : List NoteZone) (i : ℕ) : NoteZone := zones.getD i defaultNoteZone

def rectsOf (zones : List NoteZone) : List (ℤ × ℤ × ℤ × ℤ) := zones.map (fun z => z.rect)

/-- A call emitted to the `AudioEngine` sink. -/
inductive AEvent
  | note_on (note : ℕ) (velocity : ℤ) (finger : FingerId)
  | note_off (note : ℕ) (finger : FingerId)
  | pitch_bend (bend : ℤ) (finger : FingerId)
  | intensity_update (value : ℤ) (finger : FingerId) (note : ℕ)
deriving DecidableEq

def AEvent.finger : AEvent → FingerId
  | note_on _ _ f => f
  | note_off _ f => f
  | pitch_bend _ f => f
  | intensity_update _ f _ => f

def AEvent.isNoteOn : AEvent → Bool
  | note_on _ _ _ => true
  | _ => false

def AEvent.isNoteOff : AEvent → Bool
  | note_off _ _ => true
  | _ => false

def AEvent.isModulation : AEvent → Bool
  | pitch_bend _ _ => true
  | intensity_update _ _ _ => true
  | _ => false

def eventsFor (f : FingerId) (evs : List AEvent) : List AEvent :=
  evs.filter (fun e => decide (e.finger = f))

def noteOffsFor (f : FingerId) (evs : List AEvent) : List AEvent :=
  evs.filter (fun e => e.isNoteOff && decide (e.finger = f))

def noteOnsFor (f : FingerId) (evs : List AEvent) : List AEvent :=
  evs.filter (fun e => e.isNoteOn && decide (e.finger = f))

/-- `InteractionManager._get_finger_tip_coordinate` (lines 73-83), including
the `finger_tip_id < len(hand_landmarks)` guard of the source. -/
def get_finger_tip_coordinate (hand_landmarks : List Landmark) (finger_tip_id : ℕ) :
    Option (ℚ × ℚ × ℚ) :=
  if finger_tip_id < hand_landmarks.length then
    match hand_landmarks.find? (fun lm => decide (lm.id = finger_tip_id)) with
    | some lm => some (lm.x, lm.y, lm.z)
    | none => none
  else none

/-- The sustain check of step 1 of `process_hands_data` (lines 106-133): the
fingertip coordinate when the binding is still valid, `none` when the note is
to be released (hand absent, finger not extended, landmark missing, or
fingertip outside the bound zone). -/
def bindingStatus (hands_data : List Hand) (zones : List NoteZone) (f : FingerId)
    (bd : Binding) : Option (ℚ × ℚ) :=
  match hands_data.find? (fun hand => decide (hand.handedness = f.1)) with
  | none => none
  | some hand =>
    match landmark_id_to_finger_name f.2 with
    | none => none
    | some finger_name =>
      if lookupStr hand.finger_states finger_name = some "extended" then
        match get_finger_tip_coordinate hand.landmarks f.2 with
        | none => none
        | some (x, y, _) =>
          if (getZone zones bd.zoneIdx).is_point_inside x y then some (x, y) else none
      else none

structure StepARes where
  zones : List NoteZone
  events : List AEvent
  processed : List FingerId
  removed : List FingerId

/-- Step 1 of `process_hands_data` (lines 98-155): sustain / modulation /
release over the existing active notes, in insertion order. -/
def stepA (hands_data : List Hand) : List (FingerId × Binding) → List NoteZone → StepARes
  | [], zones => { zones := zones, events := [], processed := [], removed := [] }
  | (f, bd) :: rest, zones =>
    match bindingStatus hands_data zones f bd with
    | some (x, y) =>
      let r := stepA hands_data rest zones
      { zones := r.zones
        events := AEvent.pitch_bend (calculate_pitch_bend x (getZone zones bd.zoneIdx).rect) f ::
          AEvent.intensity_update (calculate_continuous_intensity y (getZone zones bd.zoneIdx).rect)
            f bd.midi_note :: r.events
        processed := f :: r.processed
        removed := r.removed }
    | none =>
      let r := stepA hands_data rest (zones.set bd.zoneIdx ((getZone zones bd.zoneIdx).deactivate))
      { zones := r.zones
        events := AEvent.note_off bd.midi_note f :: r.events
        processed := r.processed
        removed := f :: r.removed }

/-- The `for zone in zones: if zone.is_point_inside(...): ...; break` scan:
the first containing zone, with its index. -/
def firstContainingAux (x y : ℚ) : List NoteZone → ℕ → Option (ℕ × NoteZone)
  | [], _ => none
  | z :: rest, i =>
    if z.is_point_inside x y then some (i, z) else firstContainingAux x y rest (i + 1)

def firstContaining (zones : List NoteZone) (x y : ℚ) : Option (ℕ × NoteZone) :=
  firstContainingAux x y zones 0

structure StepBRes where
  zones : List NoteZone
  active : List (FingerId × Binding)
  events : List AEvent
  processed : List FingerId

/-- Step 2 of `process_hands_data` for one candidate finger (lines 169-216). -/
def claimFinger (target_fingers : List ℕ) (hand : Hand) (hand_id : String)
    (finger_name : String) (finger_tip_landmark_id : ℕ) (st : StepBRes) : StepBRes :=
  if finger_tip_landmark_id ∉ target_fingers then st
  else if (hand_id, finger_tip_landmark_id) ∈ st.processed then st
  else if (lookupNote st.active (hand_id, finger_tip_landmark_id)).isSome then st
  else if lookupStr hand.finger_states finger_name = some "extended" then
    match get_finger_tip_coordinate hand.landmarks finger_tip_landmark_id with
    | none => st
    | some (x, y, _) =>
      match firstContaining st.zones x y with
      | none => st
      | some (zi, z) =>
        if z.is_active = false then
          { zones := st.zones.set zi (z.activate (hand_id, finger_tip_landmark_id))
            active := st.active ++ [((hand_id, finger_tip_landmark_id),
              { zoneIdx := zi, initial_y := y, midi_note := z.note_midi_value })]
            events := st.events ++ [AEvent.note_on z.note_midi_value
              (calculate_initial_velocity y z.rect) (hand_id, finger_tip_landmark_id)]
            processed := st.processed ++ [(hand_id, finger_tip_landmark_id)] }
        else st
  else st

/-- The `for finger_name, finger_tip_landmark_id in FINGER_TIP_LANDMARKS.items()` loop. -/
def stepBFingers (target_fingers : List ℕ) (hand : Hand) (hand_id : String) :
    List (String × ℕ) → StepBRes → StepBRes
  | [], st => st
  | (finger_name, tip_id) :: rest, st =>
    stepBFingers target_fingers hand hand_id rest
      (claimFinger target_fingers hand hand_id finger_name tip_id st)

/-- `hand_id = hand['handedness']`, with the `"Unknown"` fallback to
`f"hand_{hand_idx}"` (lines 164-166). -/
def handIdAt (hand_idx : ℕ) (hand : Hand) : String :=
  if hand.handedness = "Unknown" then "hand_" ++ toString hand_idx else hand.handedness

/-- The `for hand_idx, hand in enumerate(hands_data)` loop of step 2. -/
def stepBHands (target_fingers : List ℕ) : List Hand → ℕ → StepBRes → StepBRes
  | [], _, st => st
  | hand :: rest, hand_idx, st =>
    stepBHands target_fingers rest (hand_idx + 1)
      (stepBFingers target_fingers hand (handIdAt hand_idx hand) FINGER_TIP_LANDMARKS st)

/-- `InteractionManager.process_hands_data` (lines 85-216): the release pass,
the deferred removals, then the new-claim pass; the emitted sink calls are the
step-1 calls followed by the step-2 calls, in program order. -/
def process_hands_data (target_fingers : List ℕ) (st : IMState) (hands_data : List Hand) :
    IMState × List AEvent :=
  let ra := stepA hands_data st.active_notes st.zones
  let active1 := st.active_notes.filter (fun p => decide (p.1 ∉ ra.removed))
  let rb := stepBHands target_fingers hands_data 0
    { zones := ra.zones, active := active1, events := [], processed := ra.processed }
  ({ zones := rb.zones, active_notes := rb.active }, ra.events ++ rb.events)

/-- Iterated frames of `process_hands_data`, accumulating the emitted calls. -/
def runFrames (target_fingers : List ℕ) : IMState → List (List Hand) → IMState × List AEvent
  | st, [] => (st, [])
  | st, fr :: rest =>
    let r := process_hands_data target_fingers st fr
    let r2 := runFrames target_fingers r.1 rest
    (r2.1, r.2 ++ r2.2)

/-- Routing of the `AudioEngine` sink calls into the `MidiHandler` sends, as in
`src/audio_output/audio_engine.py` (`note_on` / `note_off` / `pitch_bend` /
`intensity_update`, midi mode). -/
def routeAEvent (pick : Finset ℕ → ℕ) (ms : MidiState) : AEvent → MidiState
  | AEvent.note_on n v f => (send_note_on pick ms n v f).1
  | AEvent.note_off n f => (send_note_off ms n f).1
  | AEvent.pitch_bend b f => (send_pitch_bend ms b f).1
  | AEvent.intensity_update v f _ => (send_channel_pressure ms v f).1

def applyAEvents (pick : Finset ℕ → ℕ) (ms : MidiState) (evs : List AEvent) : MidiState :=
  evs.foldl (routeAEvent pick) ms

/-! ### Concrete fixtures used by the witnesses -/

/-- A zone at the origin, claimed by the right index finger. -/
def zoneW : NoteZone := (mkNoteZone 0 0 100 100 "C4" 60 none).activate ("Right", 8)

/-- A right hand with nine landmarks whose index fingertip (landmark 8) sits at
`(50, 50)`, inside `zoneW`. -/
def lmsW : List Landmark :=
  [⟨0, 0, 0, 0⟩, ⟨1, 0, 0, 0⟩, ⟨2, 0, 0, 0⟩, ⟨3, 0, 0, 0⟩, ⟨4, 0, 0, 0⟩,
   ⟨5, 0, 0, 0⟩, ⟨6, 0, 0, 0⟩, ⟨7, 0, 0, 0⟩, ⟨8, 50, 50, 0⟩]

def handW : Hand := ⟨"Right", [("INDEX", "extended")], lmsW⟩

/-- The state with `zoneW` claimed by the right index finger. -/
def stW : IMState := ⟨[zoneW], [(("Right", 8), ⟨0, 50, 60⟩)]⟩

def allTipsW : List ℕ := [4, 8, 12, 16, 20]


theorem roundHalfEven_le (q : ℚ) : (roundHalfEven q : ℚ) ≤ q + 1/2 := by
  have hn : ((⌊q + 1/2⌋ : ℤ) : ℚ) ≤ q + 1/2 := Int.floor_le _
  unfold roundHalfEven
  split_ifs with h
  · push_cast
    linarith
  · exact hn

theorem le_roundHalfEven (q : ℚ) : q - 1/2 ≤ (roundHalfEven q : ℚ) := by
  have hn : q + 1/2 - 1 < ((⌊q + 1/2⌋ : ℤ) : ℚ) := Int.sub_one_lt_floor _
  unfold roundHalfEven
  split_ifs with h
  · obtain ⟨h1, -⟩ := h
    push_cast
    linarith
  · linarith

theorem roundHalfEven_mono {a b : ℚ} (hab : a ≤ b) :
    roundHalfEven a ≤ roundHalfEven b := by
  by_contra hc
  push_neg at hc
  have h1 : roundHalfEven b + 1 ≤ roundHalfEven a := hc
  have hbq : b - 1/2 ≤ (roundHalfEven b : ℚ) := le_roundHalfEven b
  have haq : (roundHalfEven a : ℚ) ≤ a + 1/2 := roundHalfEven_le a
  have h1q : (roundHalfEven b : ℚ) + 1 ≤ (roundHalfEven a : ℚ) := by exact_mod_cast h1
  have hea : (roundHalfEven a : ℚ) = a + 1/2 := le_antisymm haq (by linarith)
  have heb : (roundHalfEven b : ℚ) = b - 1/2 := le_antisymm (by linarith) hbq
  have hab2 : b ≤ a := by linarith
  have hε : a = b := le_antisymm hab hab2
  rw [hε] at hea
  linarith

theorem roundHalfEven_intCast (k : ℤ) : roundHalfEven (k : ℚ) = k := by
  have hf : ⌊(k : ℚ) + 1/2⌋ = k := by
    rw [Int.floor_eq_iff]
    constructor
    · linarith
    · have h2 : (1:ℚ)/2 < 1 := by norm_num
      linarith
  unfold roundHalfEven
  rw [hf]
  rw [if_neg]
  rintro ⟨h1, -⟩
  linarith [h1]

theorem roundHalfEven_half127 : roundHalfEven (127/2 : ℚ) = 64 := by
  have hf : ⌊(127/2 : ℚ) + 1/2⌋ = 64 := by
    rw [Int.floor_eq_iff]
    norm_num
  unfold roundHalfEven
  rw [hf]
  rw [if_neg]
  rintro ⟨-, h2⟩
  exact h2 (by norm_num)

theorem clamp01_eval {v r : ℚ} (h : v = r) (h0 : 0 ≤ r) (h1 : r ≤ 1) :
    max 0 (min 1 v) = r := by
  rw [h, min_eq_right h1, max_eq_right h0]

theorem clamp01_low {v : ℚ} (h : v ≤ 0) : max 0 (min 1 v) = 0 := by
  rw [min_eq_right (le_trans h (by norm_num)), max_eq_left h]

theorem clamp01_high {v : ℚ} (h : 1 ≤ v) : max 0 (min 1 v) = 1 := by
  rw [min_eq_left h, max_eq_right (by norm_num)]

theorem pb_map_value_eval (r : ℚ) :
    pb_map_value r 0 1 (-(midi_bend_max_abs_value : ℚ)) (midi_bend_max_abs_value : ℚ)
      = -8191 + r * 16382 := by
  unfold pb_map_value midi_bend_max_abs_value
  rw [if_neg (by norm_num : (0:ℚ) ≠ 1)]
  push_cast
  ring

theorem calculate_pitch_bend_eval (x : ℚ) (R : ℤ × ℤ × ℤ × ℤ) (hw : ¬ R.2.2.1 = 0)
    (r : ℚ) (hr : max 0 (min 1 ((x - (R.1 : ℚ)) / (R.2.2.1 : ℚ))) = r)
    (k : ℤ) (hk : roundHalfEven (-8191 + r * 16382) = k)
    (hk1 : -8191 ≤ k) (hk2 : k ≤ 8191) :
    calculate_pitch_bend x R = k := by
  unfold calculate_pitch_bend
  rw [if_neg hw, hr, pb_map_value_eval, hk]
  unfold midi_bend_max_abs_value
  rw [min_eq_right hk2, max_eq_right hk1]

theorem vi_map_value_eval (r : ℚ) (h0 : 0 ≤ r) (h1 : r ≤ 1) :
    vi_map_value r 0 1 (midi_min_value : ℚ) (midi_max_value : ℚ) = r * 127 := by
  unfold vi_map_value midi_min_value midi_max_value
  rw [if_neg (by norm_num : (0:ℚ) ≠ 1)]
  push_cast
  rw [if_pos (by norm_num : (0:ℚ) < 127)]
  have hm : (0:ℚ) + (r - 0) / (1 - 0) * (127 - 0) = r * 127 := by ring
  rw [hm, min_eq_left (by nlinarith), max_eq_right (by nlinarith)]

theorem calculate_initial_velocity_eval (y : ℚ) (R : ℤ × ℤ × ℤ × ℤ) (hh : ¬ R.2.2.2 = 0)
    (r : ℚ) (hr : max 0 (min 1 ((y - (R.2.1 : ℚ)) / (R.2.2.2 : ℚ))) = r)
    (h0 : 0 ≤ r) (h1 : r ≤ 1) (k : ℤ) (hk : roundHalfEven (r * 127) = k) :
    calculate_initial_velocity y R = k := by
  unfold calculate_initial_velocity
  rw [if_neg hh, hr, vi_map_value_eval r h0 h1, hk]

theorem velocity_range (y : ℚ) (R : ℤ × ℤ × ℤ × ℤ) :
    0 ≤ calculate_initial_velocity y R ∧ calculate_initial_velocity y R ≤ 127 := by
  unfold calculate_initial_velocity
  split_ifs with hh
  · norm_num [midi_min_value]
  · set r := max 0 (min 1 ((y - (R.2.1 : ℚ)) / (R.2.2.2 : ℚ))) with hrdef
    have h0 : (0:ℚ) ≤ r := le_max_left _ _
    have h1 : r ≤ 1 := max_le (by norm_num) (min_le_left _ _)
    rw [vi_map_value_eval r h0 h1]
    have hb1 : (r * 127 : ℚ) - 1/2 ≤ (roundHalfEven (r * 127) : ℚ) := le_roundHalfEven _
    have hb2 : (roundHalfEven (r * 127) : ℚ) ≤ r * 127 + 1/2 := roundHalfEven_le _
    have hp1 : (0:ℚ) ≤ r * 127 := by nlinarith
    have hp2 : (r * 127 : ℚ) ≤ 127 := by nlinarith
    constructor
    · have hq : (-1 : ℚ) < (roundHalfEven (r * 127) : ℚ) := by linarith
      have hz : (-1 : ℤ) < roundHalfEven (r * 127) := by exact_mod_cast hq
      omega
    · have hq : (roundHalfEven (r * 127) : ℚ) < 128 := by linarith
      have hz : roundHalfEven (r * 127) < 128 := by exact_mod_cast hq
      omega

/-- C8: `calculate_pitch_bend` is monotone non-decreasing in the finger x
coordinate for every zone of positive width; for zone `(100,0,200,100)` it
returns `-8191` at `x=100`, `0` at `x=200` and `8191` at `x=300`; outside
`[100,300]` it clamps to the nearest endpoint; a zero-width zone yields `0`. -/
theorem c8_pitch_bend_monotone_endpoints :
    (∀ R : ℤ × ℤ × ℤ × ℤ, 0 < R.2.2.1 → ∀ x1 x2 : ℚ, x1 ≤ x2 →
        calculate_pitch_bend x1 R ≤ calculate_pitch_bend x2 R) ∧
    calculate_pitch_bend 100 (100, 0, 200, 100) = -8191 ∧
    calculate_pitch_bend 200 (100, 0, 200, 100) = 0 ∧
    calculate_pitch_bend 300 (100, 0, 200, 100) = 8191 ∧
    (∀ x : ℚ, x ≤ 100 → calculate_pitch_bend x (100, 0, 200, 100) = -8191) ∧
    (∀ x : ℚ, 300 ≤ x → calculate_pitch_bend x (100, 0, 200, 100) = 8191) ∧
    (∀ R : ℤ × ℤ × ℤ × ℤ, R.2.2.1 = 0 → ∀ x : ℚ, calculate_pitch_bend x R = 0) := by
  have hlow : ∀ x : ℚ, x ≤ 100 → calculate_pitch_bend x (100, 0, 200, 100) = -8191 := by
    intro x hx
    apply calculate_pitch_bend_eval x (100, 0, 200, 100) (by norm_num) 0
    · apply clamp01_low
      have h1 : x - ((100:ℤ):ℚ) ≤ 0 := by push_cast; linarith
      have h2 : (0:ℚ) ≤ (((100, (0:ℤ), (200:ℤ), (100:ℤ)) : ℤ × ℤ × ℤ × ℤ).2.2.1 : ℚ) := by norm_num
      exact div_nonpos_iff.mpr (Or.inr ⟨h1, h2⟩)
    · rw [show (-8191 + (0:ℚ) * 16382) = ((-8191 : ℤ) : ℚ) by norm_num]
      exact roundHalfEven_intCast _
    · norm_num
    · norm_num
  have hhigh : ∀ x : ℚ, 300 ≤ x → calculate_pitch_bend x (100, 0, 200, 100) = 8191 := by
    intro x hx
    apply calculate_pitch_bend_eval x (100, 0, 200, 100) (by norm_num) 1
    · apply clamp01_high
      rw [le_div_iff₀ (by norm_num : (0:ℚ) < (((100, (0:ℤ), (200:ℤ), (100:ℤ)) : ℤ × ℤ × ℤ × ℤ).2.2.1 : ℚ))]
      push_cast
      linarith
    · rw [show (-8191 + (1:ℚ) * 16382) = ((8191 : ℤ) : ℚ) by norm_num]
      exact roundHalfEven_intCast _
    · norm_num
    · norm_num
  refine ⟨?_, hlow 100 le_rfl, ?_, hhigh 300 le_rfl, hlow, hhigh, ?_⟩
  · intro R hw x1 x2 hx
    have hwne : ¬ R.2.2.1 = 0 := by omega
    have hwq : (0:ℚ) < (R.2.2.1 : ℚ) := by exact_mod_cast hw
    unfold calculate_pitch_bend
    rw [if_neg hwne, if_neg hwne, pb_map_value_eval, pb_map_value_eval]
    have hr : (x1 - (R.1 : ℚ)) / (R.2.2.1 : ℚ) ≤ (x2 - (R.1 : ℚ)) / (R.2.2.1 : ℚ) := by
      rw [div_le_div_iff₀ hwq hwq]
      nlinarith
    have hclamp : max 0 (min 1 ((x1 - (R.1 : ℚ)) / (R.2.2.1 : ℚ)))
        ≤ max 0 (min 1 ((x2 - (R.1 : ℚ)) / (R.2.2.1 : ℚ))) :=
      max_le_max le_rfl (min_le_min le_rfl hr)
    have hmap : (-8191 : ℚ) + (max 0 (min 1 ((x1 - (R.1 : ℚ)) / (R.2.2.1 : ℚ)))) * 16382
        ≤ -8191 + (max 0 (min 1 ((x2 - (R.1 : ℚ)) / (R.2.2.1 : ℚ)))) * 16382 := by
      nlinarith
    exact max_le_max le_rfl (min_le_min le_rfl (roundHalfEven_mono hmap))
  · apply calculate_pitch_bend_eval 200 (100, 0, 200, 100) (by norm_num) (1/2)
    · apply clamp01_eval
      · push_cast
        norm_num
      · norm_num
      · norm_num
    · rw [show (-8191 + (1/2 : ℚ) * 16382) = ((0 : ℤ) : ℚ) by norm_num]
      exact roundHalfEven_intCast _
    · norm_num
    · norm_num
  · intro R hR x
    unfold calculate_pitch_bend
    rw [if_pos hR]

/-- C8 witness: the monotonicity and clamping parts applied at concrete inputs. -/
theorem c8_witness :
    (0 : ℤ) < ((100, (0:ℤ), (200:ℤ), (100:ℤ)) : ℤ × ℤ × ℤ × ℤ).2.2.1 ∧ (150 : ℚ) ≤ 250 ∧
    calculate_pitch_bend 150 (100, 0, 200, 100) ≤ calculate_pitch_bend 250 (100, 0, 200, 100) ∧
    (90 : ℚ) ≤ 100 ∧ calculate_pitch_bend 90 (100, 0, 200, 100) = -8191 :=
  ⟨by norm_num, by norm_num,
   c8_pitch_bend_monotone_endpoints.1 (100, 0, 200, 100) (by norm_num) 150 250 (by norm_num),
   by norm_num, c8_pitch_bend_monotone_endpoints.2.2.2.2.1 90 (by norm_num)⟩

/-- C9: `calculate_initial_velocity` and `calculate_continuous_intensity` are
extensionally equal and always return an integer in `[0,127]`; for zone
`(50,100,100,200)` the value is `0` at `y=100`, `64` at `y=200` and `127` at
`y=300`; every zero-height zone yields `0`. -/
theorem c9_velocity_intensity_equiv :
    (∀ (y : ℚ) (R : ℤ × ℤ × ℤ × ℤ),
        calculate_initial_velocity y R = calculate_continuous_intensity y R ∧
        0 ≤ calculate_initial_velocity y R ∧ calculate_initial_velocity y R ≤ 127) ∧
    calculate_initial_velocity 100 (50, 100, 100, 200) = 0 ∧
    calculate_initial_velocity 200 (50, 100, 100, 200) = 64 ∧
    calculate_initial_velocity 300 (50, 100, 100, 200) = 127 ∧
    (∀ R : ℤ × ℤ × ℤ × ℤ, R.2.2.2 = 0 → ∀ y : ℚ, calculate_initial_velocity y R = 0) := by
  refine ⟨fun y R => ⟨rfl, (velocity_range y R).1, (velocity_range y R).2⟩, ?_, ?_, ?_, ?_⟩
  · apply calculate_initial_velocity_eval 100 (50, 100, 100, 200) (by norm_num) 0
    · apply clamp01_eval
      · push_cast
        norm_num
      · norm_num
      · norm_num
    · norm_num
    · norm_num
    · rw [show ((0:ℚ) * 127) = ((0 : ℤ) : ℚ) by norm_num]
      exact roundHalfEven_intCast _
  · apply calculate_initial_velocity_eval 200 (50, 100, 100, 200) (by norm_num) (1/2)
    · apply clamp01_eval
      · push_cast
        norm_num
      · norm_num
      · norm_num
    · norm_num
    · norm_num
    · rw [show ((1/2 : ℚ) * 127) = (127/2 : ℚ) by norm_num]
      exact roundHalfEven_half127
  · apply calculate_initial_velocity_eval 300 (50, 100, 100, 200) (by norm_num) 1
    · apply clamp01_eval
      · push_cast
        norm_num
      · norm_num
      · norm_num
    · norm_num
    · norm_num
    · rw [show ((1:ℚ) * 127) = ((127 : ℤ) : ℚ) by norm_num]
      exact roundHalfEven_intCast _
  · intro R hR y
    unfold calculate_initial_velocity
    rw [if_pos hR]
    rfl

/-- C9 witness: the zero-height part applied at a concrete zero-height zone. -/
theorem c9_witness :
    ((0, 0, 0, 0) : ℤ × ℤ × ℤ × ℤ).2.2.2 = 0 ∧
    calculate_initial_velocity 5 (0, 0, 0, 0) = 0 :=
  ⟨rfl, c9_velocity_intensity_equiv.2.2.2.2 (0, 0, 0, 0) rfl 5⟩

/-! ### Association-list lemmas for `findChan` -/

theorem findChan_eq_none_iff (l : List (FingerId × ℕ)) (f : FingerId) :
    findChan l f = none ↔ ∀ p ∈ l, p.1 ≠ f := by
  simp [findChan, List.find?_eq_none]

theorem findChan_mem {l : List (FingerId × ℕ)} {f : FingerId} {c : ℕ}
    (h : findChan l f = some c) : (f, c) ∈ l := by
  unfold findChan at h
  cases hf : l.find? (fun p => decide (p.1 = f)) with
  | none => rw [hf] at h; simp at h
  | some a =>
    rw [hf] at h
    simp at h
    have ha1 : a.1 = f := by simpa using List.find?_some hf
    have ha2 : a ∈ l := List.mem_of_find?_eq_some hf
    have : a = (f, c) := by
      cases a
      simp_all
    rwa [this] at ha2

theorem findChan_filter_self (l : List (FingerId × ℕ)) (f : FingerId) :
    findChan (l.filter (fun p => decide (p.1 ≠ f))) f = none := by
  rw [findChan_eq_none_iff]
  intro p hp
  have := (List.mem_filter.mp hp).2
  simpa using this

theorem find?_filter_of_imp {α : Type} (q r : α → Bool)
    (h : ∀ a, r a = true → q a = true) (l : List α) :
    (l.filter q).find? r = l.find? r := by
  induction l with
  | nil => rfl
  | cons a t ih =>
    rw [List.filter_cons]
    cases hq : q a with
    | false =>
      have hr : r a = false := by
        cases hra : r a
        · rfl
        · exact absurd (h a hra) (by simp [hq])
      rw [if_neg (by simp [hq])]
      rw [List.find?_cons_of_neg _ (by simp [hr])]
      exact ih
    | true =>
      rw [if_pos (by simp [hq])]
      cases hra : r a with
      | true =>
        rw [List.find?_cons_of_pos _ (by simp [hra]), List.find?_cons_of_pos _ (by simp [hra])]
      | false =>
        rw [List.find?_cons_of_neg _ (by simp [hra]), List.find?_cons_of_neg _ (by simp [hra])]
        exact ih

theorem findChan_filter_ne {g f : FingerId} (hgf : f ≠ g) (l : List (FingerId × ℕ)) :
    findChan (l.filter (fun p => decide (p.1 ≠ g))) f = findChan l f := by
  unfold findChan
  rw [find?_filter_of_imp]
  intro a ha
  simp at ha ⊢
  rw [ha]
  exact hgf

theorem findChan_append_some {l : List (FingerId × ℕ)} {f : FingerId} {c : ℕ}
    (h : findChan l f = some c) (l2 : List (FingerId × ℕ)) :
    findChan (l ++ l2) f = some c := by
  unfold findChan at h ⊢
  rw [List.find?_append]
  cases hf : l.find? (fun p => decide (p.1 = f)) with
  | none => rw [hf] at h; simp at h
  | some a => rw [hf] at h; simpa using h

theorem findChan_append_none {l : List (FingerId × ℕ)} {f : FingerId}
    (h : findChan l f = none) (l2 : List (FingerId × ℕ)) :
    findChan (l ++ l2) f = findChan l2 f := by
  unfold findChan at h ⊢
  rw [List.find?_append]
  cases hf : l.find? (fun p => decide (p.1 = f)) with
  | none => simp
  | some a => rw [hf] at h; simp at h

/-! ### C2 and C10: no-op situations of the send functions -/

/-- C2: with the port open, the available-channel set empty and the finger
holding no channel, `send_note_on` sends no message and leaves the state
exactly unchanged (no partial mutation). -/
theorem c2_exhaustion_no_mutation (pick : Finset ℕ → ℕ) (s : MidiState) (note : ℕ)
    (velocity : ℤ) (finger_id : FingerId)
    (hopen : s.portOpen = true) (hempty : s.available_channels = ∅)
    (hfree : findChan s.active_note_channels finger_id = none) :
    send_note_on pick s note velocity finger_id = (s, []) := by
  unfold send_note_on
  rw [hfree]
  simp [hopen, hempty]

/-- C2 witness: the exhaustion no-op at a concrete state. -/
theorem c2_witness :
    (MidiState.mk true ∅ [(("Left", 8), 2)]).portOpen = true ∧
    (MidiState.mk true ∅ [(("Left", 8), 2)]).available_channels = ∅ ∧
    findChan (MidiState.mk true ∅ [(("Left", 8), 2)]).active_note_channels ("Right", 8) = none ∧
    send_note_on pickMin (MidiState.mk true ∅ [(("Left", 8), 2)]) 60 100 ("Right", 8)
      = (MidiState.mk true ∅ [(("Left", 8), 2)], []) :=
  ⟨rfl, rfl, by decide,
   c2_exhaustion_no_mutation pickMin _ 60 100 ("Right", 8) rfl rfl (by decide)⟩

/-- C10: with the port closed, every send method returns without emitting a
message and without touching `available_channels` or `active_note_channels`. -/
theorem c10_closed_port_no_effect (pick : Finset ℕ → ℕ) (s : MidiState) (note cc : ℕ)
    (velocity bend pressure ccv : ℤ) (finger_id : FingerId)
    (hclosed : s.portOpen = false) :
    send_note_on pick s note velocity finger_id = (s, []) ∧
    send_note_off s note finger_id = (s, []) ∧
    send_pitch_bend s bend finger_id = (s, []) ∧
    send_channel_pressure s pressure finger_id = (s, []) ∧
    send_control_change s cc ccv finger_id = (s, []) := by
  unfold send_note_on send_note_off send_pitch_bend send_channel_pressure send_control_change
  simp [hclosed]

/-- C10 witness: the closed-port no-ops at a concrete state. -/
theorem c10_witness :
    (MidiState.mk false {2, 3} [(("Left", 8), 4)]).portOpen = false ∧
    send_note_on pickMin (MidiState.mk false {2, 3} [(("Left", 8), 4)]) 60 100 ("Left", 8)
      = (MidiState.mk false {2, 3} [(("Left", 8), 4)], []) :=
  ⟨rfl, (c10_closed_port_no_effect pickMin _ 60 11 100 0 80 90 ("Left", 8) rfl).1⟩

/-! ### C6: `NoteZone.activate` on an already-claimed zone -/

/-- C6 counterexample: `activate` with a different finger on a Claimed zone is
not a no-op keeping the original owner — the owner is overwritten. -/
theorem c6_counterexample :
    ¬ ((zoneClaimedByLeft.activate ("Right", 8)).is_active = true ∧
       (zoneClaimedByLeft.activate ("Right", 8)).active_finger_id = some ("Left", 8) ∧
       zoneClaimedByLeft.activate ("Right", 8) = zoneClaimedByLeft) := by
  decide

/-- C6 (amended): `NoteZone.activate` succeeds unconditionally, also on a zone
that is already Claimed: the zone ends Claimed with the *new* finger as owner
(callers must guard; geometry and note are unchanged). -/
theorem c6_amended (z : NoteZone) (f : FingerId) :
    (z.activate f).is_active = true ∧ (z.activate f).active_finger_id = some f ∧
    (z.activate f).rect = z.rect ∧ (z.activate f).note_midi_value = z.note_midi_value :=
  ⟨rfl, rfl, rfl, rfl⟩

/-! ### C1: the channel-pool invariant -/

theorem pickMin_valid : ∀ A : Finset ℕ, A.Nonempty → pickMin A ∈ A := by
  intro A h
  rw [pickMin, dif_pos h]
  exact A.min'_mem h

theorem pairSym : Symmetric (fun p q : FingerId × ℕ => p.1 ≠ q.1 ∧ p.2 ≠ q.2) :=
  fun _ _ h => ⟨h.1.symm, h.2.symm⟩

theorem midiInv_note_on (pick : Finset ℕ → ℕ)
    (hpick : ∀ A : Finset ℕ, A.Nonempty → pick A ∈ A)
    {lo hi : ℕ} {s : MidiState} (hs : MidiInv lo hi s) (n : ℕ) (v : ℤ) (f : FingerId) :
    MidiInv lo hi (send_note_on pick s n v f).1 := by
  obtain ⟨hpw, hdisj, hunion⟩ := hs
  unfold send_note_on
  by_cases hport : s.portOpen = false
  · rw [if_pos hport]
    exact ⟨hpw, hdisj, hunion⟩
  · rw [if_neg hport]
    cases hf : findChan s.active_note_channels f with
    | some c => exact ⟨hpw, hdisj, hunion⟩
    | none =>
      by_cases hne : s.available_channels.Nonempty
      · rw [if_pos hne]
        dsimp only
        have hc : pick s.available_channels ∈ s.available_channels := hpick _ hne
        have hcnot : pick s.available_channels ∉ chanList s := fun hmem =>
          (Finset.disjoint_left.mp hdisj hc) (List.mem_toFinset.mpr hmem)
        have hfnot : ∀ p ∈ s.active_note_channels, p.1 ≠ f := (findChan_eq_none_iff _ _).mp hf
        have hch : chanList (MidiState.mk s.portOpen
            (s.available_channels.erase (pick s.available_channels))
            (s.active_note_channels ++ [(f, pick s.available_channels)]))
            = chanList s ++ [pick s.available_channels] := by
          simp [chanList]
        refine ⟨?_, ?_, ?_⟩
        · show List.Pairwise _ (s.active_note_channels ++ [(f, pick s.available_channels)])
          rw [List.pairwise_append]
          refine ⟨hpw, List.pairwise_singleton _ _, ?_⟩
          intro a ha b hb
          have hb2 : b = (f, pick s.available_channels) := by simpa using hb
          subst hb2
          refine ⟨hfnot a ha, ?_⟩
          intro h2
          apply hcnot
          have h2' : a.2 = pick s.available_channels := h2
          rw [← h2']
          exact List.mem_map_of_mem _ ha
        · show Disjoint (s.available_channels.erase (pick s.available_channels)) _
          rw [show chanList _ = chanList s ++ [pick s.available_channels] from hch,
            List.toFinset_append]
          rw [Finset.disjoint_left]
          intro x hx hx2
          rcases Finset.mem_union.mp hx2 with h1 | h2
          · exact (Finset.disjoint_left.mp hdisj (Finset.mem_erase.mp hx).2)
              (List.mem_toFinset.mpr (List.mem_toFinset.mp h1))
          · have hxc : x = pick s.available_channels := by simpa using h2
            exact (Finset.mem_erase.mp hx).1 hxc
        · rw [show chanList _ = chanList s ++ [pick s.available_channels] from hch,
            List.toFinset_append]
          have hiff : ∀ x, x ∈ s.available_channels ∨ x ∈ (chanList s).toFinset
              ↔ x ∈ Finset.Icc lo hi := by
            intro x
            rw [← hunion]
            simp [Finset.mem_union]
          ext x
          simp only [Finset.mem_union, Finset.mem_erase, List.mem_toFinset]
          constructor
          · rintro (⟨hxne, hxa⟩ | hxt | hxc)
            · exact (hiff x).mp (Or.inl hxa)
            · exact (hiff x).mp (Or.inr (List.mem_toFinset.mpr hxt))
            · have hxc2 : x = pick s.available_channels := by simpa using hxc
              rw [hxc2]
              exact (hiff _).mp (Or.inl hc)
          · intro hx
            rcases (hiff x).mpr hx with hxa | hxt
            · by_cases hxc : x = pick s.available_channels
              · right; right; simpa using hxc
              · left; exact ⟨hxc, hxa⟩
            · right; left; exact List.mem_toFinset.mp hxt
      · rw [if_neg hne]
        exact ⟨hpw, hdisj, hunion⟩

theorem midiInv_note_off {lo hi : ℕ} {s : MidiState} (hs : MidiInv lo hi s)
    (n : ℕ) (f : FingerId) :
    MidiInv lo hi (send_note_off s n f).1 := by
  obtain ⟨hpw, hdisj, hunion⟩ := hs
  unfold send_note_off
  by_cases hport : s.portOpen = false
  · rw [if_pos hport]
    exact ⟨hpw, hdisj, hunion⟩
  · rw [if_neg hport]
    cases hf : findChan s.active_note_channels f with
    | none => exact ⟨hpw, hdisj, hunion⟩
    | some c =>
      dsimp only
      have hmem : (f, c) ∈ s.active_note_channels := findChan_mem hf
      have hforall := hpw.forall pairSym
      have hA : ∀ x, x ∈ (s.active_note_channels.filter
          (fun p => decide (p.1 ≠ f))).map (fun p => p.2) → x ∈ chanList s ∧ x ≠ c := by
        intro x hx
        obtain ⟨q, hq, hqx⟩ := List.mem_map.mp hx
        have hql : q ∈ s.active_note_channels := (List.mem_filter.mp hq).1
        have hqf : q.1 ≠ f := by simpa using (List.mem_filter.mp hq).2
        refine ⟨hqx ▸ List.mem_map_of_mem _ hql, ?_⟩
        intro hxc
        have hqne : q ≠ (f, c) := fun he => hqf (by rw [he])
        have h2 := (hforall hql hmem hqne).2
        rw [hqx] at h2
        exact h2 hxc
      have hB : c ∈ chanList s := by
        have := List.mem_map_of_mem (fun p : FingerId × ℕ => p.2) hmem
        simpa [chanList] using this
      have hC : ∀ x, x ∈ chanList s → x ≠ c →
          x ∈ (s.active_note_channels.filter (fun p => decide (p.1 ≠ f))).map
            (fun p => p.2) := by
        intro x hx hxc
        obtain ⟨q, hq, hqx⟩ := List.mem_map.mp hx
        by_cases hqe : q = (f, c)
        · exfalso
          apply hxc
          rw [hqe] at hqx
          exact hqx.symm
        · have hqf : q.1 ≠ f := (hforall hq hmem hqe).1
          exact List.mem_map.mpr ⟨q, List.mem_filter.mpr ⟨hq, by simpa using hqf⟩, hqx⟩
      refine ⟨?_, ?_, ?_⟩
      · exact hpw.sublist (List.filter_sublist _)
      · show Disjoint (insert c s.available_channels) _
        rw [Finset.disjoint_left]
        intro x hx hx2
        have hx2m : x ∈ (s.active_note_channels.filter
            (fun p => decide (p.1 ≠ f))).map (fun p => p.2) := by
          simpa [chanList] using List.mem_toFinset.mp hx2
        rcases Finset.mem_insert.mp hx with rfl | hxa
        · exact (hA x hx2m).2 rfl
        · exact (Finset.disjoint_left.mp hdisj hxa) (List.mem_toFinset.mpr (hA x hx2m).1)
      · have hiff : ∀ x, x ∈ s.available_channels ∨ x ∈ (chanList s).toFinset
            ↔ x ∈ Finset.Icc lo hi := by
          intro x
          rw [← hunion]
          simp [Finset.mem_union]
        ext x
        simp only [Finset.mem_union, Finset.mem_insert, List.mem_toFinset, chanList]
        constructor
        · intro hx
          rcases hx with (hxc | hxa) | hxt
          · rw [hxc]
            exact (hiff c).mp (Or.inr (List.mem_toFinset.mpr hB))
          · exact (hiff x).mp (Or.inl hxa)
          · exact (hiff x).mp (Or.inr (List.mem_toFinset.mpr (hA x hxt).1))
        · intro hx
          rcases (hiff x).mpr hx with hxa | hxt
          · exact Or.inl (Or.inr hxa)
          · by_cases hxc : x = c
            · exact Or.inl (Or.inl hxc)
            · exact Or.inr (hC x (List.mem_toFinset.mp hxt) hxc)

theorem midiInv_run (pick : Finset ℕ → ℕ)
    (hpick : ∀ A : Finset ℕ, A.Nonempty → pick A ∈ A)
    {lo hi : ℕ} (calls : List MidiCall) :
    ∀ {s : MidiState}, MidiInv lo hi s → MidiInv lo hi (midiRun pick s calls) := by
  induction calls with
  | nil => intro s hs; exact hs
  | cons e rest ih =>
    intro s hs
    show MidiInv lo hi (midiRun pick (midiStep pick s e) rest)
    apply ih
    cases e with
    | noteOn n v f => exact midiInv_note_on pick hpick hs n v f
    | noteOff n f => exact midiInv_note_off hs n f

theorem midiInv_init (lo hi : ℕ) : MidiInv lo hi (initMidi lo hi) := by
  refine ⟨List.Pairwise.nil, ?_, ?_⟩
  · simp [initMidi, chanList]
  · simp [initMidi, chanList]

/-- C1: after any finite sequence of `send_note_on` / `send_note_off` calls on
a freshly constructed handler with an open port and channel range `[lo, hi]`,
the available set and the assigned channels are disjoint, together they are
exactly `Finset.Icc lo hi`, and no two distinct fingers hold the same
channel.  `pick` ranges over all possible `set.pop()` behaviours. -/
theorem c1_channel_pool_invariant (pick : Finset ℕ → ℕ)
    (hpick : ∀ A : Finset ℕ, A.Nonempty → pick A ∈ A)
    (lo hi : ℕ) (calls : List MidiCall) :
    Disjoint (midiRun pick (initMidi lo hi) calls).available_channels
      (chanList (midiRun pick (initMidi lo hi) calls)).toFinset ∧
    (midiRun pick (initMidi lo hi) calls).available_channels ∪
      (chanList (midiRun pick (initMidi lo hi) calls)).toFinset = Finset.Icc lo hi ∧
    ∀ p ∈ (midiRun pick (initMidi lo hi) calls).active_note_channels,
      ∀ q ∈ (midiRun pick (initMidi lo hi) calls).active_note_channels,
        p.1 ≠ q.1 → p.2 ≠ q.2 := by
  obtain ⟨hpw, hdisj, hunion⟩ := midiInv_run pick hpick calls (midiInv_init lo hi)
  refine ⟨hdisj, hunion, ?_⟩
  intro p hp q hq hne
  exact (hpw.forall pairSym hp hq (fun he => hne (by rw [he]))).2

/-- C1 witness: a concrete two-call trace on the pool `{2, 3}` with the
minimum-element pop. -/
theorem c1_witness :
    (∀ A : Finset ℕ, A.Nonempty → pickMin A ∈ A) ∧
    (Disjoint (midiRun pickMin (initMidi 2 3)
        [MidiCall.noteOn 60 100 ("Right", 8), MidiCall.noteOff 60 ("Right", 8)]).available_channels
      (chanList (midiRun pickMin (initMidi 2 3)
        [MidiCall.noteOn 60 100 ("Right", 8), MidiCall.noteOff 60 ("Right", 8)])).toFinset ∧
    (midiRun pickMin (initMidi 2 3)
        [MidiCall.noteOn 60 100 ("Right", 8), MidiCall.noteOff 60 ("Right", 8)]).available_channels ∪
      (chanList (midiRun pickMin (initMidi 2 3)
        [MidiCall.noteOn 60 100 ("Right", 8), MidiCall.noteOff 60 ("Right", 8)])).toFinset
        = Finset.Icc 2 3 ∧
    ∀ p ∈ (midiRun pickMin (initMidi 2 3)
        [MidiCall.noteOn 60 100 ("Right", 8), MidiCall.noteOff 60 ("Right", 8)]).active_note_channels,
      ∀ q ∈ (midiRun pickMin (initMidi 2 3)
        [MidiCall.noteOn 60 100 ("Right", 8), MidiCall.noteOff 60 ("Right", 8)]).active_note_channels,
        p.1 ≠ q.1 → p.2 ≠ q.2) :=
  ⟨pickMin_valid, c1_channel_pool_invariant pickMin pickMin_valid 2 3 _⟩

/-! ### C7: row assignment of the generated layout -/

theorem rowCount_succ (n r : ℕ) :
    rowCount (n + 1) r = rowCount n r + (if n % 2 = r then 1 else 0) := by
  unfold rowCount
  rw [List.range_succ, List.filter_append, List.length_append]
  congr 1
  by_cases h : n % 2 = r
  · simp [h]
  · simp [h]

theorem rowCount_zero_eq (n : ℕ) : rowCount n 0 = (n + 1) / 2 := by
  induction n with
  | zero => rfl
  | succ n ih =>
    rw [rowCount_succ, ih]
    rcases Nat.mod_two_eq_zero_or_one n with h | h
    · simp [h]
      omega
    · simp [h]
      omega

theorem rowCount_one_eq (n : ℕ) : rowCount n 1 = n / 2 := by
  induction n with
  | zero => rfl
  | succ n ih =>
    rw [rowCount_succ, ih]
    rcases Nat.mod_two_eq_zero_or_one n with h | h
    · simp [h]
      omega
    · simp [h]
      omega

theorem buildRow_length (l : List (String × ℕ)) (ic ir : ℕ) (zw rh p : ℚ) :
    (buildRow l ic ir zw rh p).length = l.length := by
  induction l generalizing ic with
  | nil => rfl
  | cons a t ih =>
    cases a
    simp [buildRow, ih]

theorem buildRow_getElem_y (l : List (String × ℕ)) (ic ir : ℕ) (zw rh p : ℚ)
    (i : ℕ) (hi : i < l.length) :
    ((buildRow l ic ir zw rh p)[i]?).map (fun z => z.rect.2.1)
      = some ⌊p + (ir : ℚ) * rh⌋ := by
  induction l generalizing ic i with
  | nil => simp at hi
  | cons a t ih =>
    cases a with
    | mk nm mv =>
      cases i with
      | zero => simp [buildRow, mkNoteZone]
      | succ j =>
        have hj : j < t.length := by simpa using hi
        simp only [buildRow]
        rw [List.getElem?_cons_succ]
        exact ih (ic + 1) j hj

/-- C7 (amended): `arrangeZones` produces one zone per note, but fills the two
rows *sequentially*: note `i` lands in row 0 when `i < ⌈n/2⌉` (the round-robin
row count) and in row 1 otherwise; its y coordinate is
`⌊padding + row * row_height⌋`. -/
theorem c7_amended (notes : List (String × ℕ)) (w h p : ℚ) :
    (arrangeZones notes w h p).length = notes.length ∧
    ∀ i, i < notes.length →
      ((arrangeZones notes w h p)[i]?).map (fun z => z.rect.2.1)
        = some ⌊p + (if i < (notes.length + 1) / 2 then (0 : ℚ) else 1) * ((h - 2 * p) / 2)⌋ := by
  by_cases hn : notes.length = 0
  · constructor
    · simp [arrangeZones, hn]
    · intro i hi
      omega
  · unfold arrangeZones
    rw [if_neg hn]
    have hrc0 : rowCount notes.length 0 = (notes.length + 1) / 2 := rowCount_zero_eq _
    have hrc1 : rowCount notes.length 1 = notes.length / 2 := rowCount_one_eq _
    have hrc0pos : ¬ rowCount notes.length 0 = 0 := by omega
    have hrc0le : rowCount notes.length 0 ≤ notes.length := by omega
    rw [if_neg hrc0pos]
    have hlen0 : (notes.take (rowCount notes.length 0)).length = rowCount notes.length 0 := by
      rw [List.length_take]
      omega
    constructor
    · by_cases hrc1z : rowCount notes.length 1 = 0
      · rw [if_pos hrc1z, List.append_nil, buildRow_length, hlen0]
        omega
      · rw [if_neg hrc1z, List.length_append, buildRow_length, buildRow_length, hlen0,
          List.length_drop]
        omega
    · intro i hi
      by_cases hilt : i < rowCount notes.length 0
      · rw [List.getElem?_append_left (by rw [buildRow_length, hlen0]; exact hilt)]
        rw [buildRow_getElem_y _ _ _ _ _ _ i (by rw [hlen0]; exact hilt)]
        rw [if_pos (by omega)]
        norm_num
      · have hge : rowCount notes.length 0 ≤ i := by omega
        have hrc1z : ¬ rowCount notes.length 1 = 0 := by omega
        rw [if_neg hrc1z]
        rw [List.getElem?_append_right (by rw [buildRow_length, hlen0]; exact hge)]
        rw [buildRow_length, hlen0]
        rw [buildRow_getElem_y _ _ _ _ _ _ (i - rowCount notes.length 0)
          (by rw [List.length_drop]; omega)]
        rw [if_neg (by omega)]
        norm_num

/-- C7 counterexample: with three notes on a 1280x720 screen and padding 10
(row height 350), note 1 is laid out in row 0 with y-coordinate 10, not in row
`1 mod 2 = 1` with y-coordinate `10 + 350` as the round-robin claim predicts. -/
theorem c7_counterexample :
    ¬ (∀ i, i < notesC7.length →
        ((arrangeZones notesC7 1280 720 10)[i]?).map (fun z => z.rect.2.1)
          = some (10 + (i % 2 : ℤ) * 350)) := by
  intro hall
  have h1 := hall 1 (by norm_num [notesC7])
  have he : ((arrangeZones notesC7 1280 720 10)[1]?).map (fun z => z.rect.2.1)
      = some ⌊(10 : ℚ) + ((0 : ℕ) : ℚ) * ((720 - 2 * 10) / 2)⌋ := by
    unfold arrangeZones
    rw [if_neg (by norm_num [notesC7])]
    have hrc0 : rowCount notesC7.length 0 = 2 := by
      rw [show notesC7.length = 3 from by norm_num [notesC7], rowCount_zero_eq]
    rw [hrc0]
    rw [if_neg (by norm_num)]
    rw [List.getElem?_append_left (by rw [buildRow_length]; norm_num [notesC7])]
    exact buildRow_getElem_y (notesC7.take 2) 0 0 _ _ 10 1 (by norm_num [notesC7])
  rw [he] at h1
  rw [show ((10 : ℚ) + ((0 : ℕ) : ℚ) * ((720 - 2 * 10) / 2)) = ((10 : ℤ) : ℚ) by norm_num,
    Int.floor_intCast] at h1
  simp at h1

/-- C7 witness: the amended row-assignment applied at note index 1 of the
three-note layout. -/
theorem c7_witness :
    (1 : ℕ) < notesC7.length ∧
    ((arrangeZones notesC7 1280 720 10)[1]?).map (fun z => z.rect.2.1)
      = some ⌊(10 : ℚ) + (if 1 < (notesC7.length + 1) / 2 then (0 : ℚ) else 1)
          * ((720 - 2 * 10) / 2)⌋ :=
  ⟨by norm_num [notesC7], (c7_amended notesC7 1280 720 10).2 1 (by norm_num [notesC7])⟩

/-! ### Association-list lemmas for `lookupNote` -/

theorem lookupNote_eq_none_iff (l : List (FingerId × Binding)) (f : FingerId) :
    lookupNote l f = none ↔ ∀ p ∈ l, p.1 ≠ f := by
  simp [lookupNote, List.find?_eq_none]

theorem lookupNote_mem {l : List (FingerId × Binding)} {f : FingerId} {bd : Binding}
    (h : lookupNote l f = some bd) : (f, bd) ∈ l := by
  unfold lookupNote at h
  cases hf : l.find? (fun p => decide (p.1 = f)) with
  | none => rw [hf] at h; simp at h
  | some a =>
    rw [hf] at h
    simp at h
    have ha1 : a.1 = f := by simpa using List.find?_some hf
    have ha2 : a ∈ l := List.mem_of_find?_eq_some hf
    have : a = (f, bd) := by
      cases a
      simp_all
    rwa [this] at ha2

theorem lookupNote_append_some {l : List (FingerId × Binding)} {f : FingerId} {bd : Binding}
    (h : lookupNote l f = some bd) (l2 : List (FingerId × Binding)) :
    lookupNote (l ++ l2) f = some bd := by
  unfold lookupNote at h ⊢
  rw [List.find?_append]
  cases hf : l.find? (fun p => decide (p.1 = f)) with
  | none => rw [hf] at h; simp at h
  | some a => rw [hf] at h; simpa using h

theorem lookupNote_append_none {l : List (FingerId × Binding)} {f : FingerId}
    (h : lookupNote l f = none) (l2 : List (FingerId × Binding)) :
    lookupNote (l ++ l2) f = lookupNote l2 f := by
  unfold lookupNote at h ⊢
  rw [List.find?_append]
  cases hf : l.find? (fun p => decide (p.1 = f)) with
  | none => simp
  | some a => rw [hf] at h; simp at h

theorem lookupNote_cons_self (f : FingerId) (bd : Binding) (t : List (FingerId × Binding)) :
    lookupNote ((f, bd) :: t) f = some bd := by
  unfold lookupNote
  rw [List.find?_cons_of_pos _ (by simp)]
  rfl

theorem lookupNote_cons_ne {g f : FingerId} (h : ¬ g = f) (bd : Binding)
    (t : List (FingerId × Binding)) :
    lookupNote ((g, bd) :: t) f = lookupNote t f := by
  unfold lookupNote
  rw [List.find?_cons_of_neg _ (by simp [h])]

theorem lookupNote_filter_keep {l : List (FingerId × Binding)} {f : FingerId}
    (rem : List FingerId) (hf : f ∉ rem) :
    lookupNote (l.filter (fun p => decide (p.1 ∉ rem))) f = lookupNote l f := by
  unfold lookupNote
  rw [find?_filter_of_imp]
  intro a ha
  simp at ha ⊢
  rw [ha]
  exact hf

theorem lookupNote_filter_of_none {l : List (FingerId × Binding)} {f : FingerId}
    (h : lookupNote l f = none) (q : FingerId × Binding → Bool) :
    lookupNote (l.filter q) f = none := by
  rw [lookupNote_eq_none_iff]
  intro p hp
  exact (lookupNote_eq_none_iff l f).mp h p (List.mem_filter.mp hp).1

theorem lookupNote_filter_removed {l : List (FingerId × Binding)} {f : FingerId}
    (rem : List FingerId) (hf : f ∈ rem) :
    lookupNote (l.filter (fun p => decide (p.1 ∉ rem))) f = none := by
  rw [lookupNote_eq_none_iff]
  intro p hp hpf
  have h2 := (List.mem_filter.mp hp).2
  rw [hpf] at h2
  simp at h2
  exact h2 hf

theorem keys_eq_of_nodup {l : List (FingerId × Binding)} (h : (l.map Prod.fst).Nodup)
    {p q : FingerId × Binding} (hp : p ∈ l) (hq : q ∈ l) (hpq : p.1 = q.1) : p = q := by
  by_contra hne
  have hpw : l.Pairwise (fun a b : FingerId × Binding => a.1 ≠ b.1) := List.pairwise_map.mp h
  exact (hpw.forall (fun _ _ hab => hab.symm) hp hq hne) hpq

theorem lookupNote_entry_eq {l : List (FingerId × Binding)} {f : FingerId} {bd : Binding}
    {p : FingerId × Binding} (h : (l.map Prod.fst).Nodup)
    (hl : lookupNote l f = some bd) (hp : p ∈ l) (hpf : p.1 = f) : p = (f, bd) :=
  keys_eq_of_nodup h hp (lookupNote_mem hl) (by rw [hpf])

/-! ### Zone-list lemmas -/

theorem getZone_set_self {zs : List NoteZone} {i : ℕ} (h : i < zs.length) (z : NoteZone) :
    getZone (zs.set i z) i = z := by
  simp [getZone, List.getD, List.getElem?_set, h]

theorem getZone_set_ne {zs : List NoteZone} {i j : ℕ} (h : ¬ i = j) (z : NoteZone) :
    getZone (zs.set i z) j = getZone zs j := by
  simp [getZone, List.getD, List.getElem?_set, h]

theorem getZone_of_getElem? {zs : List NoteZone} {i : ℕ} {z : NoteZone}
    (h : zs[i]? = some z) : getZone zs i = z := by
  simp [getZone, List.getD, h]

theorem rectsOf_set_of_rect_eq : ∀ (zs : List NoteZone) (i : ℕ) (z : NoteZone),
    z.rect = (getZone zs i).rect → rectsOf (zs.set i z) = rectsOf zs := by
  intro zs
  induction zs with
  | nil => intro i z _; rfl
  | cons a t ih =>
    intro i z h
    cases i with
    | zero =>
      have h2 : z.rect = a.rect := by simpa [getZone, List.getD] using h
      simp [rectsOf, List.set, h2]
    | succ j =>
      have h2 : z.rect = (getZone t j).rect := by
        simpa [getZone, List.getD, List.getElem?_cons_succ] using h
      simp only [List.set, rectsOf, List.map_cons]
      rw [show (t.set j z).map (fun z => z.rect) = t.map (fun z => z.rect) from ih j z h2]

theorem getZone_rect_congr {zs zs' : List NoteZone} (h : rectsOf zs = rectsOf zs') (i : ℕ) :
    (getZone zs i).rect = (getZone zs' i).rect := by
  have h2 : (rectsOf zs)[i]? = (rectsOf zs')[i]? := by rw [h]
  rw [rectsOf, rectsOf, List.getElem?_map, List.getElem?_map] at h2
  cases hz : zs[i]? with
  | none =>
    cases hz' : zs'[i]? with
    | none => simp [getZone, List.getD, hz, hz']
    | some b => rw [hz, hz'] at h2; simp at h2
  | some a =>
    cases hz' : zs'[i]? with
    | none => rw [hz, hz'] at h2; simp at h2
    | some b =>
      rw [hz, hz'] at h2
      simp at h2
      simp [getZone, List.getD, hz, hz', h2]

theorem rectsOf_length {zs zs' : List NoteZone} (h : rectsOf zs = rectsOf zs') :
    zs.length = zs'.length := by
  have h2 := congrArg List.length h
  simpa [rectsOf] using h2

theorem is_point_inside_fun_congr {z z' : NoteZone} (h : z.rect = z'.rect) :
    z.is_point_inside = z'.is_point_inside := by
  funext x y
  unfold NoteZone.is_point_inside
  rw [h]

theorem bindingStatus_congr {zs zs' : List NoteZone} (h : rectsOf zs = rectsOf zs')
    (hands : List Hand) (f : FingerId) (bd : Binding) :
    bindingStatus hands zs f bd = bindingStatus hands zs' f bd := by
  unfold bindingStatus
  rw [is_point_inside_fun_congr (getZone_rect_congr h bd.zoneIdx)]

/-! ### Release-pass (`stepA`) lemmas -/

theorem stepA_rectsOf (hands : List Hand) :
    ∀ (l : List (FingerId × Binding)) (zs : List NoteZone),
      rectsOf (stepA hands l zs).zones = rectsOf zs := by
  intro l
  induction l with
  | nil => intro zs; rfl
  | cons a t ih =>
    intro zs
    obtain ⟨f, bd⟩ := a
    cases hst : bindingStatus hands zs f bd with
    | some xy =>
      obtain ⟨x, y⟩ := xy
      simp only [stepA, hst]
      exact ih zs
    | none =>
      simp only [stepA, hst]
      rw [ih]
      exact rectsOf_set_of_rect_eq zs bd.zoneIdx _ rfl

theorem stepA_events_finger (hands : List Hand) :
    ∀ (l : List (FingerId × Binding)) (zs : List NoteZone),
      ∀ e ∈ (stepA hands l zs).events, e.finger ∈ l.map Prod.fst := by
  intro l
  induction l with
  | nil => intro zs e he; simp [stepA] at he
  | cons a t ih =>
    intro zs e he
    obtain ⟨f, bd⟩ := a
    cases hst : bindingStatus hands zs f bd with
    | some xy =>
      obtain ⟨x, y⟩ := xy
      simp only [stepA, hst, List.mem_cons] at he
      rcases he with rfl | rfl | he
      · simp [AEvent.finger]
      · simp [AEvent.finger]
      · exact List.mem_cons_of_mem _ (ih zs e he)
    | none =>
      simp only [stepA, hst, List.mem_cons] at he
      rcases he with rfl | he
      · simp [AEvent.finger]
      · exact List.mem_cons_of_mem _ (ih _ e he)

theorem stepA_no_note_on (hands : List Hand) :
    ∀ (l : List (FingerId × Binding)) (zs : List NoteZone),
      ∀ e ∈ (stepA hands l zs).events, e.isNoteOn = false := by
  intro l
  induction l with
  | nil => intro zs e he; simp [stepA] at he
  | cons a t ih =>
    intro zs e he
    obtain ⟨f, bd⟩ := a
    cases hst : bindingStatus hands zs f bd with
    | some xy =>
      obtain ⟨x, y⟩ := xy
      simp only [stepA, hst, List.mem_cons] at he
      rcases he with rfl | rfl | he
      · rfl
      · rfl
      · exact ih zs e he
    | none =>
      simp only [stepA, hst, List.mem_cons] at he
      rcases he with rfl | he
      · rfl
      · exact ih _ e he

theorem stepA_processed_sub (hands : List Hand) :
    ∀ (l : List (FingerId × Binding)) (zs : List NoteZone),
      ∀ g ∈ (stepA hands l zs).processed, g ∈ l.map Prod.fst := by
  intro l
  induction l with
  | nil => intro zs g hg; simp [stepA] at hg
  | cons a t ih =>
    intro zs g hg
    obtain ⟨f, bd⟩ := a
    cases hst : bindingStatus hands zs f bd with
    | some xy =>
      obtain ⟨x, y⟩ := xy
      simp only [stepA, hst, List.mem_cons] at hg
      rcases hg with rfl | hg
      · simp
      · exact List.mem_cons_of_mem _ (ih zs g hg)
    | none =>
      simp only [stepA, hst] at hg
      exact List.mem_cons_of_mem _ (ih _ g hg)

theorem stepA_removed_sub (hands : List Hand) :
    ∀ (l : List (FingerId × Binding)) (zs : List NoteZone),
      ∀ g ∈ (stepA hands l zs).removed, g ∈ l.map Prod.fst := by
  intro l
  induction l with
  | nil => intro zs g hg; simp [stepA] at hg
  | cons a t ih =>
    intro zs g hg
    obtain ⟨f, bd⟩ := a
    cases hst : bindingStatus hands zs f bd with
    | some xy =>
      obtain ⟨x, y⟩ := xy
      simp only [stepA, hst] at hg
      exact List.mem_cons_of_mem _ (ih zs g hg)
    | none =>
      simp only [stepA, hst, List.mem_cons] at hg
      rcases hg with rfl | hg
      · simp
      · exact List.mem_cons_of_mem _ (ih _ g hg)

theorem stepA_preserves_free (hands : List Hand) :
    ∀ (l : List (FingerId × Binding)) (zs : List NoteZone) (zi : ℕ),
      (getZone zs zi).is_active = false → (getZone zs zi).active_finger_id = none →
      (getZone (stepA hands l zs).zones zi).is_active = false ∧
      (getZone (stepA hands l zs).zones zi).active_finger_id = none := by
  intro l
  induction l with
  | nil => intro zs zi h1 h2; exact ⟨h1, h2⟩
  | cons a t ih =>
    intro zs zi h1 h2
    obtain ⟨f, bd⟩ := a
    cases hst : bindingStatus hands zs f bd with
    | some xy =>
      obtain ⟨x, y⟩ := xy
      simp only [stepA, hst]
      exact ih zs zi h1 h2
    | none =>
      simp only [stepA, hst]
      by_cases hj : bd.zoneIdx = zi
      · subst hj
        by_cases hlen : bd.zoneIdx < zs.length
        · apply ih
          · rw [getZone_set_self hlen]
            rfl
          · rw [getZone_set_self hlen]
            rfl
        · rw [List.set_eq_of_length_le (by omega)]
          exact ih zs bd.zoneIdx h1 h2
      · apply ih
        · rw [getZone_set_ne hj]
          exact h1
        · rw [getZone_set_ne hj]
          exact h2

theorem stepA_zone_untouched (hands : List Hand) :
    ∀ (l : List (FingerId × Binding)) (zs : List NoteZone) (zi : ℕ),
      (∀ p ∈ l, p.2.zoneIdx = zi → bindingStatus hands zs p.1 p.2 ≠ none) →
      getZone (stepA hands l zs).zones zi = getZone zs zi := by
  intro l
  induction l with
  | nil => intro zs zi _; rfl
  | cons a t ih =>
    intro zs zi h
    obtain ⟨f, bd⟩ := a
    cases hst : bindingStatus hands zs f bd with
    | some xy =>
      obtain ⟨x, y⟩ := xy
      simp only [stepA, hst]
      exact ih zs zi (fun p hp => h p (List.mem_cons_of_mem _ hp))
    | none =>
      have hj : ¬ bd.zoneIdx = zi := by
        intro hj
        exact (h (f, bd) (List.mem_cons_self _ _) hj) hst
      simp only [stepA, hst]
      have hre : rectsOf (zs.set bd.zoneIdx ((getZone zs bd.zoneIdx).deactivate))
          = rectsOf zs := rectsOf_set_of_rect_eq zs _ _ rfl
      rw [ih _ zi ?_, getZone_set_ne hj]
      intro p hp hzi
      rw [bindingStatus_congr hre]
      exact h p (List.mem_cons_of_mem _ hp) hzi

theorem stepA_release (hands : List Hand) :
    ∀ (l : List (FingerId × Binding)) (zs : List NoteZone) (f : FingerId) (bd : Binding),
      (l.map Prod.fst).Nodup →
      lookupNote l f = some bd →
      bindingStatus hands zs f bd = none →
      noteOffsFor f (stepA hands l zs).events = [AEvent.note_off bd.midi_note f] ∧
      f ∈ (stepA hands l zs).removed ∧
      (getZone (stepA hands l zs).zones bd.zoneIdx).is_active = false ∧
      (getZone (stepA hands l zs).zones bd.zoneIdx).active_finger_id = none := by
  intro l
  induction l with
  | nil => intro zs f bd _ hmem _; simp [lookupNote] at hmem
  | cons a t ih =>
    intro zs f bd hkeys hmem hrel
    obtain ⟨g, bd'⟩ := a
    have hkeys2 : (g :: t.map Prod.fst).Nodup := by simpa using hkeys
    obtain ⟨hnotin, hkeys'⟩ := List.nodup_cons.mp hkeys2
    by_cases hgf : g = f
    · subst hgf
      have hbd : bd' = bd := by
        have h2 : some bd' = some bd := by
          rw [← lookupNote_cons_self g bd' t]
          exact hmem
        exact Option.some.inj h2
      simp only [stepA, hbd, hrel]
      have hfree : (getZone ((zs.set bd.zoneIdx ((getZone zs bd.zoneIdx).deactivate)))
          bd.zoneIdx).is_active = false ∧
          (getZone ((zs.set bd.zoneIdx ((getZone zs bd.zoneIdx).deactivate)))
          bd.zoneIdx).active_finger_id = none := by
        by_cases hlen : bd.zoneIdx < zs.length
        · rw [getZone_set_self hlen]
          exact ⟨rfl, rfl⟩
        · rw [List.set_eq_of_length_le (by omega)]
          have hnone : zs[bd.zoneIdx]? = none := by
            rw [List.getElem?_eq_none]
            omega
          constructor
          · simp [getZone, List.getD, hnone, defaultNoteZone, mkNoteZone]
          · simp [getZone, List.getD, hnone, defaultNoteZone, mkNoteZone]
      obtain ⟨hf1, hf2⟩ := stepA_preserves_free hands t _ bd.zoneIdx hfree.1 hfree.2
      refine ⟨?_, List.mem_cons_self _ _, hf1, hf2⟩
      unfold noteOffsFor
      rw [List.filter_cons_of_pos (by simp [AEvent.isNoteOff, AEvent.finger])]
      rw [List.filter_eq_nil_iff.mpr ?_]
      intro e he
      have hfin := stepA_events_finger hands t _ e he
      have : e.finger ≠ g := fun hc => hnotin (hc ▸ hfin)
      simp [this]
    · have hmem' : lookupNote t f = some bd := by
        rw [← lookupNote_cons_ne hgf bd' t]
        exact hmem
      cases hst : bindingStatus hands zs g bd' with
      | some xy =>
        obtain ⟨x, y⟩ := xy
        simp only [stepA, hst]
        obtain ⟨e1, e2, e3, e4⟩ := ih zs f bd hkeys' hmem' hrel
        refine ⟨?_, e2, e3, e4⟩
        unfold noteOffsFor at e1 ⊢
        rw [List.filter_cons_of_neg (by simp [AEvent.isNoteOff]),
          List.filter_cons_of_neg (by simp [AEvent.isNoteOff])]
        exact e1
      | none =>
        simp only [stepA, hst]
        have hre : rectsOf (zs.set bd'.zoneIdx ((getZone zs bd'.zoneIdx).deactivate))
            = rectsOf zs := rectsOf_set_of_rect_eq zs _ _ rfl
        have hrel' : bindingStatus hands
            (zs.set bd'.zoneIdx ((getZone zs bd'.zoneIdx).deactivate)) f bd = none := by
          rw [bindingStatus_congr hre]
          exact hrel
        obtain ⟨e1, e2, e3, e4⟩ := ih _ f bd hkeys' hmem' hrel'
        refine ⟨?_, List.mem_cons_of_mem _ e2, e3, e4⟩
        unfold noteOffsFor at e1 ⊢
        rw [List.filter_cons_of_neg (by simp [AEvent.isNoteOff, AEvent.finger, hgf])]
        exact e1

theorem stepA_sustain (hands : List Hand) :
    ∀ (l : List (FingerId × Binding)) (zs : List NoteZone) (f : FingerId) (bd : Binding)
      (x y : ℚ),
      (l.map Prod.fst).Nodup →
      lookupNote l f = some bd →
      bindingStatus hands zs f bd = some (x, y) →
      eventsFor f (stepA hands l zs).events
        = [AEvent.pitch_bend (calculate_pitch_bend x (getZone zs bd.zoneIdx).rect) f,
           AEvent.intensity_update (calculate_continuous_intensity y (getZone zs bd.zoneIdx).rect)
             f bd.midi_note] ∧
      f ∈ (stepA hands l zs).processed ∧
      f ∉ (stepA hands l zs).removed := by
  intro l
  induction l with
  | nil => intro zs f bd x y _ hmem _; simp [lookupNote] at hmem
  | cons a t ih =>
    intro zs f bd x y hkeys hmem hst
    obtain ⟨g, bd'⟩ := a
    have hkeys2 : (g :: t.map Prod.fst).Nodup := by simpa using hkeys
    obtain ⟨hnotin, hkeys'⟩ := List.nodup_cons.mp hkeys2
    by_cases hgf : g = f
    · subst hgf
      have hbd : bd' = bd := by
        have h2 : some bd' = some bd := by
          rw [← lookupNote_cons_self g bd' t]
          exact hmem
        exact Option.some.inj h2
      simp only [stepA, hbd, hst]
      have hclean : ∀ e ∈ (stepA hands t zs).events, ¬ (e.finger = g) := by
        intro e he hc
        exact hnotin (hc ▸ stepA_events_finger hands t zs e he)
      refine ⟨?_, List.mem_cons_self _ _, ?_⟩
      · unfold eventsFor
        rw [List.filter_cons_of_pos (by simp [AEvent.finger]),
          List.filter_cons_of_pos (by simp [AEvent.finger])]
        rw [List.filter_eq_nil_iff.mpr (by intro e he; simpa using hclean e he)]
      · intro hcon
        exact hnotin (stepA_removed_sub hands t zs g hcon)
    · have hmem' : lookupNote t f = some bd := by
        rw [← lookupNote_cons_ne hgf bd' t]
        exact hmem
      cases hst' : bindingStatus hands zs g bd' with
      | some xy =>
        obtain ⟨x', y'⟩ := xy
        simp only [stepA, hst']
        obtain ⟨e1, e2, e3⟩ := ih zs f bd x y hkeys' hmem' hst
        refine ⟨?_, List.mem_cons_of_mem _ e2, e3⟩
        unfold eventsFor at e1 ⊢
        rw [List.filter_cons_of_neg (by simp [AEvent.finger, hgf]),
          List.filter_cons_of_neg (by simp [AEvent.finger, hgf])]
        exact e1
      | none =>
        simp only [stepA, hst']
        have hre : rectsOf (zs.set bd'.zoneIdx ((getZone zs bd'.zoneIdx).deactivate))
            = rectsOf zs := rectsOf_set_of_rect_eq zs _ _ rfl
        have hst2 : bindingStatus hands
            (zs.set bd'.zoneIdx ((getZone zs bd'.zoneIdx).deactivate)) f bd = some (x, y) := by
          rw [bindingStatus_congr hre]
          exact hst
        obtain ⟨e1, e2, e3⟩ := ih _ f bd x y hkeys' hmem' hst2
        rw [getZone_rect_congr hre bd.zoneIdx] at e1
        refine ⟨?_, e2, ?_⟩
        · unfold eventsFor at e1 ⊢
          rw [List.filter_cons_of_neg (by simp [AEvent.finger, hgf])]
          exact e1
        · intro hcon
          rcases List.mem_cons.mp hcon with hc | hc
          · exact hgf hc.symm
          · exact e3 hc

/-! ### Claim-pass (`stepB`) lemmas -/

theorem firstContainingAux_spec (x y : ℚ) :
    ∀ (l : List NoteZone) (k zi : ℕ) (z : NoteZone),
      firstContainingAux x y l k = some (zi, z) →
      k ≤ zi ∧ zi - k < l.length ∧ l[zi - k]? = some z ∧ z.is_point_inside x y = true := by
  intro l
  induction l with
  | nil => intro k zi z h; simp [firstContainingAux] at h
  | cons a t ih =>
    intro k zi z h
    unfold firstContainingAux at h
    by_cases hin : a.is_point_inside x y
    · rw [if_pos hin] at h
      obtain ⟨h1, h2⟩ := Prod.mk.injEq .. ▸ (Option.some.inj h)
      subst h1
      subst h2
      refine ⟨le_rfl, by simp, by simp, hin⟩
    · rw [if_neg hin] at h
      obtain ⟨h1, h2, h3, h4⟩ := ih (k + 1) zi z h
      refine ⟨by omega, by simp; omega, ?_, h4⟩
      rw [show zi - k = (zi - (k + 1)) + 1 from by omega]
      simpa using h3

theorem firstContaining_spec {zones : List NoteZone} {x y : ℚ} {zi : ℕ} {z : NoteZone}
    (h : firstContaining zones x y = some (zi, z)) :
    zi < zones.length ∧ zones[zi]? = some z ∧ z.is_point_inside x y = true := by
  obtain ⟨h1, h2, h3, h4⟩ := firstContainingAux_spec x y zones 0 zi z h
  simp at h2 h3
  exact ⟨h2, h3, h4⟩

theorem firstContainingAux_congr (x y : ℚ) :
    ∀ (zs zs' : List NoteZone) (k : ℕ), rectsOf zs = rectsOf zs' →
      (firstContainingAux x y zs k).map Prod.fst
        = (firstContainingAux x y zs' k).map Prod.fst := by
  intro zs
  induction zs with
  | nil =>
    intro zs' k h
    cases zs' with
    | nil => rfl
    | cons b t' => simp [rectsOf] at h
  | cons a t ih =>
    intro zs' k h
    cases zs' with
    | nil => simp [rectsOf] at h
    | cons b t' =>
      have h2 : a.rect = b.rect ∧ rectsOf t = rectsOf t' := by simpa [rectsOf] using h
      unfold firstContainingAux
      rw [show a.is_point_inside x y = b.is_point_inside x y from by
        unfold NoteZone.is_point_inside; rw [h2.1]]
      by_cases hin : b.is_point_inside x y
      · rw [if_pos hin, if_pos hin]
        rfl
      · rw [if_neg hin, if_neg hin]
        exact ih t' (k + 1) h2.2

theorem firstContaining_congr {zs zs' : List NoteZone} (h : rectsOf zs = rectsOf zs')
    (x y : ℚ) :
    (firstContaining zs x y).map Prod.fst = (firstContaining zs' x y).map Prod.fst :=
  firstContainingAux_congr x y zs zs' 0 h

theorem claimFinger_cases (tf : List ℕ) (hand : Hand) (hid : String) (fname : String)
    (tip : ℕ) (st : StepBRes) :
    claimFinger tf hand hid fname tip st = st ∨
    ∃ (x y zc : ℚ) (zi : ℕ) (z : NoteZone),
      (hid, tip) ∉ st.processed ∧
      lookupNote st.active (hid, tip) = none ∧
      get_finger_tip_coordinate hand.landmarks tip = some (x, y, zc) ∧
      firstContaining st.zones x y = some (zi, z) ∧
      z.is_active = false ∧
      claimFinger tf hand hid fname tip st = {
        zones := st.zones.set zi (z.activate (hid, tip)),
        active := st.active ++ [((hid, tip),
          { zoneIdx := zi, initial_y := y, midi_note := z.note_midi_value })],
        events := st.events ++ [AEvent.note_on z.note_midi_value
          (calculate_initial_velocity y z.rect) (hid, tip)],
        processed := st.processed ++ [(hid, tip)] } := by
  by_cases h1 : tip ∉ tf
  · left
    simp only [claimFinger, if_pos h1]
  · by_cases h2 : (hid, tip) ∈ st.processed
    · left
      simp only [claimFinger, if_neg h1, if_pos h2]
    · by_cases h3 : (lookupNote st.active (hid, tip)).isSome
      · left
        simp only [claimFinger, if_neg h1, if_neg h2, if_pos h3]
      · have h3n : lookupNote st.active (hid, tip) = none := by
          cases hl : lookupNote st.active (hid, tip) with
          | none => rfl
          | some b => rw [hl] at h3; simp at h3
        by_cases h4 : lookupStr hand.finger_states fname = some "extended"
        · cases hco : get_finger_tip_coordinate hand.landmarks tip with
          | none =>
            left
            simp only [claimFinger, if_neg h1, if_neg h2, if_neg h3, if_pos h4, hco]
          | some xyz =>
            obtain ⟨x, y, zc⟩ := xyz
            cases hfc : firstContaining st.zones x y with
            | none =>
              left
              simp only [claimFinger, if_neg h1, if_neg h2, if_neg h3, if_pos h4, hco, hfc]
            | some iz =>
              obtain ⟨zi, z⟩ := iz
              by_cases h5 : z.is_active = false
              · right
                refine ⟨x, y, zc, zi, z, h2, h3n, rfl, hfc, h5, ?_⟩
                simp only [claimFinger, if_neg h1, if_neg h2, if_neg h3, if_pos h4, hco, hfc,
                  if_pos h5]
              · left
                simp only [claimFinger, if_neg h1, if_neg h2, if_neg h3, if_pos h4, hco, hfc,
                  if_neg h5]
        · left
          simp only [claimFinger, if_neg h1, if_neg h2, if_neg h3, if_neg h4]

theorem stepBFingers_inv (tf : List ℕ) (hand : Hand) (hid : String) (P : StepBRes → Prop)
    (hstep : ∀ fname tip st, P st → P (claimFinger tf hand hid fname tip st)) :
    ∀ (pairs : List (String × ℕ)) (st : StepBRes), P st →
      P (stepBFingers tf hand hid pairs st) := by
  intro pairs
  induction pairs with
  | nil => intro st h; exact h
  | cons a t ih =>
    intro st h
    obtain ⟨fname, tip⟩ := a
    exact ih _ (hstep fname tip st h)

theorem stepBHands_inv (tf : List ℕ) (P : StepBRes → Prop) :
    ∀ (rest : List Hand) (k : ℕ) (st : StepBRes),
      (∀ (i : ℕ) (hand : Hand), rest[i]? = some hand →
        ∀ fname tip st2, P st2 → P (claimFinger tf hand (handIdAt (k + i) hand) fname tip st2)) →
      P st → P (stepBHands tf rest k st) := by
  intro rest
  induction rest with
  | nil => intro k st _ h; exact h
  | cons hand t ih =>
    intro k st hstep h
    show P (stepBHands tf t (k + 1)
      (stepBFingers tf hand (handIdAt k hand) FINGER_TIP_LANDMARKS st))
    apply ih (k + 1)
    · intro i hd hi fname tip st2 hP2
      have h2 := hstep (i + 1) hd (by simpa using hi) fname tip st2 hP2
      rw [show k + 1 + i = k + (i + 1) from by omega]
      exact h2
    · apply stepBFingers_inv tf hand (handIdAt k hand) P
      · intro fname tip st2 hP2
        have h2 := hstep 0 hand (by simp) fname tip st2 hP2
        rw [show k + 0 = k from by omega] at h2
        exact h2
      · exact h

/-! ### Routing the emitted calls into the MIDI handler -/

theorem send_pitch_bend_fst (s : MidiState) (b : ℤ) (f : FingerId) :
    (send_pitch_bend s b f).1 = s := by
  unfold send_pitch_bend
  by_cases h : s.portOpen = false
  · rw [if_pos h]
  · rw [if_neg h]
    cases hf : findChan s.active_note_channels f with
    | none => rfl
    | some c => rfl

theorem send_channel_pressure_fst (s : MidiState) (v : ℤ) (f : FingerId) :
    (send_channel_pressure s v f).1 = s := by
  unfold send_channel_pressure
  by_cases h : s.portOpen = false
  · rw [if_pos h]
  · rw [if_neg h]
    cases hf : findChan s.active_note_channels f with
    | none => rfl
    | some c => rfl

theorem applyAEvents_keep (pick : Finset ℕ → ℕ) (f : FingerId) (c : ℕ) :
    ∀ (evs : List AEvent),
      (∀ e ∈ evs, e.isNoteOn = false) →
      (∀ e ∈ evs, e.isNoteOff = true → e.finger ≠ f) →
      ∀ ms : MidiState, c ∈ ms.available_channels →
        findChan ms.active_note_channels f = none →
        c ∈ (applyAEvents pick ms evs).available_channels ∧
        findChan (applyAEvents pick ms evs).active_note_channels f = none := by
  intro evs
  induction evs with
  | nil => intro _ _ ms h1 h2; exact ⟨h1, h2⟩
  | cons e t ih =>
    intro hno hnf ms h1 h2
    have hstep : c ∈ (routeAEvent pick ms e).available_channels ∧
        findChan (routeAEvent pick ms e).active_note_channels f = none := by
      cases e with
      | note_on n v g =>
        exact absurd (hno _ (List.mem_cons_self _ _)) (by simp [AEvent.isNoteOn])
      | note_off n g =>
        have hgf : AEvent.finger (AEvent.note_off n g) ≠ f :=
          hnf _ (List.mem_cons_self _ _) rfl
        show c ∈ (send_note_off ms n g).1.available_channels ∧
          findChan (send_note_off ms n g).1.active_note_channels f = none
        unfold send_note_off
        by_cases hp : ms.portOpen = false
        · rw [if_pos hp]
          exact ⟨h1, h2⟩
        · rw [if_neg hp]
          cases hg : findChan ms.active_note_channels g with
          | none => exact ⟨h1, h2⟩
          | some cg =>
            simp only [hg]
            constructor
            · exact Finset.mem_insert_of_mem h1
            · rw [findChan_eq_none_iff] at h2 ⊢
              intro p hp2
              exact h2 p (List.mem_filter.mp hp2).1
      | pitch_bend b g =>
        show c ∈ (send_pitch_bend ms b g).1.available_channels ∧
          findChan (send_pitch_bend ms b g).1.active_note_channels f = none
        rw [send_pitch_bend_fst]
        exact ⟨h1, h2⟩
      | intensity_update v g n =>
        show c ∈ (send_channel_pressure ms v g).1.available_channels ∧
          findChan (send_channel_pressure ms v g).1.active_note_channels f = none
        rw [send_channel_pressure_fst]
        exact ⟨h1, h2⟩
    exact ih (fun e2 he => hno e2 (List.mem_cons_of_mem _ he))
      (fun e2 he => hnf e2 (List.mem_cons_of_mem _ he)) _ hstep.1 hstep.2

theorem applyAEvents_release (pick : Finset ℕ → ℕ) (f : FingerId) (c : ℕ) (n : ℕ) :
    ∀ (evs : List AEvent),
      (∀ e ∈ evs, e.isNoteOn = false) →
      noteOffsFor f evs = [AEvent.note_off n f] →
      ∀ ms : MidiState, ms.portOpen = true →
        findChan ms.active_note_channels f = some c →
        c ∈ (applyAEvents pick ms evs).available_channels ∧
        findChan (applyAEvents pick ms evs).active_note_channels f = none := by
  intro evs
  induction evs with
  | nil => intro _ hoff ms _ _; simp [noteOffsFor] at hoff
  | cons e t ih =>
    intro hno hoff ms hport hc
    by_cases he : (e.isNoteOff && decide (e.finger = f)) = true
    · have hoff2 : e :: noteOffsFor f t = [AEvent.note_off n f] := by
        rw [← hoff]
        unfold noteOffsFor
        simp [List.filter_cons, he]
      rw [List.cons.injEq] at hoff2
      obtain ⟨he1, hrest⟩ := hoff2
      subst he1
      have hms' : routeAEvent pick ms (AEvent.note_off n f) =
          { portOpen := ms.portOpen, available_channels := insert c ms.available_channels,
            active_note_channels :=
              ms.active_note_channels.filter (fun p => decide (p.1 ≠ f)) } := by
        show (send_note_off ms n f).1 = _
        unfold send_note_off
        rw [if_neg (by simp [hport]), hc]
      have hkeep := applyAEvents_keep pick f c t
        (fun e2 he2 => hno e2 (List.mem_cons_of_mem _ he2))
        (by
          intro e2 he2 hoffe hfe
          have h3 := List.filter_eq_nil_iff.mp hrest e2 he2
          simp [hoffe, hfe] at h3)
        (routeAEvent pick ms (AEvent.note_off n f))
        (by rw [hms']; exact Finset.mem_insert_self c _)
        (by rw [hms']; exact findChan_filter_self _ f)
      exact hkeep
    · have hoff' : noteOffsFor f t = [AEvent.note_off n f] := by
        rw [← hoff]
        unfold noteOffsFor
        simp only [Bool.not_eq_true] at he
        simp [List.filter_cons, he]
      have hstep : (routeAEvent pick ms e).portOpen = true ∧
          findChan (routeAEvent pick ms e).active_note_channels f = some c := by
        cases e with
        | note_on n' v g =>
          exact absurd (hno _ (List.mem_cons_self _ _)) (by simp [AEvent.isNoteOn])
        | note_off n' g =>
          have hgf : ¬ (g = f) := by
            intro hg
            apply he
            simp [AEvent.isNoteOff, AEvent.finger, hg]
          show (send_note_off ms n' g).1.portOpen = true ∧
            findChan (send_note_off ms n' g).1.active_note_channels f = some c
          unfold send_note_off
          rw [if_neg (by simp [hport])]
          cases hg2 : findChan ms.active_note_channels g with
          | none => exact ⟨hport, hc⟩
          | some cg =>
            simp only [hg2]
            refine ⟨hport, ?_⟩
            rw [findChan_filter_ne (fun hh => hgf hh.symm)]
            exact hc
        | pitch_bend b g =>
          show (send_pitch_bend ms b g).1.portOpen = true ∧
            findChan (send_pitch_bend ms b g).1.active_note_channels f = some c
          rw [send_pitch_bend_fst]
          exact ⟨hport, hc⟩
        | intensity_update v g n2 =>
          show (send_channel_pressure ms v g).1.portOpen = true ∧
            findChan (send_channel_pressure ms v g).1.active_note_channels f = some c
          rw [send_channel_pressure_fst]
          exact ⟨hport, hc⟩
      exact ih (fun e2 he2 => hno e2 (List.mem_cons_of_mem _ he2)) hoff' _ hstep.1 hstep.2

theorem claimFinger_events_noteOff_free (tf : List ℕ) (hand : Hand) (hid : String)
    (fname : String) (tip : ℕ) (st : StepBRes)
    (h : ∀ e ∈ st.events, e.isNoteOff = false) :
    ∀ e ∈ (claimFinger tf hand hid fname tip st).events, e.isNoteOff = false := by
  rcases claimFinger_cases tf hand hid fname tip st with hsame |
    ⟨x, y, zc, zi, z, _, _, _, _, _, heq⟩
  · rw [hsame]
    exact h
  · rw [heq]
    intro e he
    rcases List.mem_append.mp he with h1 | h1
    · exact h e h1
    · have h2 : e = AEvent.note_on z.note_midi_value
          (calculate_initial_velocity y z.rect) (hid, tip) := by simpa using h1
      rw [h2]
      rfl

theorem stepB_events_noteOff_free (tf : List ℕ) (hands : List Hand)
    (zones : List NoteZone) (active : List (FingerId × Binding))
    (processed : List FingerId) :
    ∀ e ∈ (stepBHands tf hands 0
      { zones := zones, active := active, events := [], processed := processed }).events,
      e.isNoteOff = false := by
  apply stepBHands_inv tf (fun st => ∀ e ∈ st.events, e.isNoteOff = false) hands 0
  · intro i hand _ fname tip st2 hP2
    exact claimFinger_events_noteOff_free tf hand _ fname tip st2 hP2
  · intro e he
    simp at he

/-- C3: when a bound finger is to be released (its hand absent, the finger not
extended, the landmark missing, or the fingertip outside its zone),
`process_hands_data` emits exactly one `note_off` carrying the binding's note;
the release pass frees the zone and drops the binding; routing the release
pass's emitted calls into an open MIDI handler in which the finger holds
channel `c` returns `c` to the available pool and unbinds the finger. -/
theorem c3_release_completeness (tf : List ℕ) (st : IMState) (hands : List Hand)
    (f : FingerId) (bd : Binding)
    (hkeys : (st.active_notes.map Prod.fst).Nodup)
    (hmem : lookupNote st.active_notes f = some bd)
    (hrel : bindingStatus hands st.zones f bd = none) :
    noteOffsFor f (process_hands_data tf st hands).2 = [AEvent.note_off bd.midi_note f] ∧
    (getZone (stepA hands st.active_notes st.zones).zones bd.zoneIdx).is_active = false ∧
    (getZone (stepA hands st.active_notes st.zones).zones bd.zoneIdx).active_finger_id
      = none ∧
    lookupNote (st.active_notes.filter
      (fun p => decide (p.1 ∉ (stepA hands st.active_notes st.zones).removed))) f = none ∧
    ∀ (pick : Finset ℕ → ℕ) (ms : MidiState) (c : ℕ),
      ms.portOpen = true → findChan ms.active_note_channels f = some c →
      c ∈ (applyAEvents pick ms
        (stepA hands st.active_notes st.zones).events).available_channels ∧
      findChan (applyAEvents pick ms
        (stepA hands st.active_notes st.zones).events).active_note_channels f = none := by
  obtain ⟨e1, e2, e3, e4⟩ := stepA_release hands st.active_notes st.zones f bd hkeys hmem hrel
  have hsplit : (process_hands_data tf st hands).2
      = (stepA hands st.active_notes st.zones).events ++
        (stepBHands tf hands 0
          { zones := (stepA hands st.active_notes st.zones).zones,
            active := st.active_notes.filter
              (fun p => decide (p.1 ∉ (stepA hands st.active_notes st.zones).removed)),
            events := [],
            processed := (stepA hands st.active_notes st.zones).processed }).events := rfl
  refine ⟨?_, e3, e4, lookupNote_filter_removed _ e2, ?_⟩
  · rw [hsplit]
    unfold noteOffsFor at e1 ⊢
    rw [List.filter_append, e1, List.filter_eq_nil_iff.mpr ?_, List.append_nil]
    intro e he
    have h2 := stepB_events_noteOff_free tf hands _ _ _ e he
    simp [h2]
  · intro pick ms c hport hfind
    exact applyAEvents_release pick f c bd.midi_note _
      (stepA_no_note_on hands st.active_notes st.zones) e1 ms hport hfind

/-! ### C4: one `note_on` per claim episode -/

theorem eventsFor_append (f : FingerId) (l1 l2 : List AEvent) :
    eventsFor f (l1 ++ l2) = eventsFor f l1 ++ eventsFor f l2 := by
  unfold eventsFor
  rw [List.filter_append]

theorem keys_notMem_of_lookup_none {l : List (FingerId × Binding)} {f : FingerId}
    (h : lookupNote l f = none) : f ∉ l.map Prod.fst := by
  intro hc
  obtain ⟨p, hp, hpf⟩ := List.mem_map.mp hc
  exact (lookupNote_eq_none_iff l f).mp h p hp hpf

theorem claimFinger_claim_once (tf : List ℕ) (hand : Hand) (hid : String)
    (fname : String) (tip : ℕ) (f : FingerId) (st : StepBRes)
    (hP : (lookupNote st.active f = none ∧ f ∉ st.processed ∧ eventsFor f st.events = []) ∨
      (∃ bd2 v, lookupNote st.active f = some bd2 ∧
        eventsFor f st.events = [AEvent.note_on bd2.midi_note v f])) :
    (lookupNote (claimFinger tf hand hid fname tip st).active f = none ∧
      f ∉ (claimFinger tf hand hid fname tip st).processed ∧
      eventsFor f (claimFinger tf hand hid fname tip st).events = []) ∨
    (∃ bd2 v, lookupNote (claimFinger tf hand hid fname tip st).active f = some bd2 ∧
      eventsFor f (claimFinger tf hand hid fname tip st).events
        = [AEvent.note_on bd2.midi_note v f]) := by
  rcases claimFinger_cases tf hand hid fname tip st with hsame |
    ⟨x, y, zc, zi, z, hproc, hnone, hco, hfc, hz, heq⟩
  · rw [hsame]
    exact hP
  · by_cases hfid : (hid, tip) = f
    · subst hfid
      rcases hP with ⟨hl, hp2, he⟩ | ⟨bd2, v, hl, he⟩
      · right
        refine ⟨⟨zi, y, z.note_midi_value⟩, calculate_initial_velocity y z.rect, ?_, ?_⟩
        · rw [heq]
          show lookupNote (st.active ++ [((hid, tip),
            ⟨zi, y, z.note_midi_value⟩)]) (hid, tip) = some ⟨zi, y, z.note_midi_value⟩
          rw [lookupNote_append_none hl]
          exact lookupNote_cons_self (hid, tip) _ []
        · rw [heq]
          show eventsFor (hid, tip) (st.events ++ [AEvent.note_on z.note_midi_value
            (calculate_initial_velocity y z.rect) (hid, tip)]) = _
          rw [eventsFor_append, he]
          unfold eventsFor
          simp [List.filter_cons, AEvent.finger]
      · exfalso
        rw [hnone] at hl
        exact Option.noConfusion hl
    · rcases hP with ⟨hl, hp2, he⟩ | ⟨bd2, v, hl, he⟩
      · left
        rw [heq]
        refine ⟨?_, ?_, ?_⟩
        · show lookupNote (st.active ++ [((hid, tip), _)]) f = none
          rw [lookupNote_append_none hl, lookupNote_cons_ne hfid]
          rfl
        · intro hc
          rcases List.mem_append.mp hc with h1 | h1
          · exact hp2 h1
          · exact hfid (List.mem_singleton.mp h1).symm
        · show eventsFor f (st.events ++ [AEvent.note_on _ _ (hid, tip)]) = []
          rw [eventsFor_append, he]
          unfold eventsFor
          simp [List.filter_cons, hfid, AEvent.finger]
      · right
        rw [heq]
        refine ⟨bd2, v, ?_, ?_⟩
        · exact lookupNote_append_some hl _
        · show eventsFor f (st.events ++ [AEvent.note_on _ _ (hid, tip)]) = _
          rw [eventsFor_append, he]
          unfold eventsFor
          simp [List.filter_cons, hfid, AEvent.finger]

theorem claimFinger_sustain_inv (tf : List ℕ) (hand : Hand) (hid : String)
    (fname : String) (tip : ℕ) (f : FingerId) (bd : Binding)
    (rects0 : List (ℤ × ℤ × ℤ × ℤ)) (st : StepBRes)
    (hP : lookupNote st.active f = some bd ∧ eventsFor f st.events = [] ∧
      (st.active.map Prod.fst).Nodup ∧ rectsOf st.zones = rects0) :
    lookupNote (claimFinger tf hand hid fname tip st).active f = some bd ∧
    eventsFor f (claimFinger tf hand hid fname tip st).events = [] ∧
    ((claimFinger tf hand hid fname tip st).active.map Prod.fst).Nodup ∧
    rectsOf (claimFinger tf hand hid fname tip st).zones = rects0 := by
  obtain ⟨hl, he, hk, hr⟩ := hP
  rcases claimFinger_cases tf hand hid fname tip st with hsame |
    ⟨x, y, zc, zi, z, hproc, hnone, hco, hfc, hz, heq⟩
  · rw [hsame]
    exact ⟨hl, he, hk, hr⟩
  · have hfid : ¬ ((hid, tip) = f) := by
      intro hc
      rw [hc, hl] at hnone
      exact Option.noConfusion hnone
    obtain ⟨hzi, hzel, hzin⟩ := firstContaining_spec hfc
    rw [heq]
    refine ⟨?_, ?_, ?_, ?_⟩
    · exact lookupNote_append_some hl _
    · show eventsFor f (st.events ++ [AEvent.note_on _ _ (hid, tip)]) = []
      rw [eventsFor_append, he]
      unfold eventsFor
      simp [List.filter_cons, hfid, AEvent.finger]
    · show ((st.active ++ [((hid, tip), _)]).map Prod.fst).Nodup
      rw [List.map_append]
      rw [List.nodup_append]
      refine ⟨hk, by simp, ?_⟩
      intro a ha hb
      have ha2 : a = (hid, tip) := by simpa using hb
      exact keys_notMem_of_lookup_none hnone (ha2 ▸ ha)
    · show rectsOf (st.zones.set zi (z.activate (hid, tip))) = rects0
      rw [← hr]
      apply rectsOf_set_of_rect_eq
      rw [getZone_of_getElem? hzel]
      rfl

theorem frame_sustain (tf : List ℕ) (st : IMState) (hands : List Hand)
    (f : FingerId) (bd : Binding) (x y : ℚ)
    (hkeys : (st.active_notes.map Prod.fst).Nodup)
    (hb : lookupNote st.active_notes f = some bd)
    (hst : bindingStatus hands st.zones f bd = some (x, y)) :
    eventsFor f (process_hands_data tf st hands).2
      = [AEvent.pitch_bend (calculate_pitch_bend x (getZone st.zones bd.zoneIdx).rect) f,
         AEvent.intensity_update
           (calculate_continuous_intensity y (getZone st.zones bd.zoneIdx).rect)
           f bd.midi_note] ∧
    lookupNote (process_hands_data tf st hands).1.active_notes f = some bd ∧
    ((process_hands_data tf st hands).1.active_notes.map Prod.fst).Nodup ∧
    rectsOf (process_hands_data tf st hands).1.zones = rectsOf st.zones := by
  obtain ⟨e1, e2, e3⟩ := stepA_sustain hands st.active_notes st.zones f bd x y hkeys hb hst
  have hactive1 : lookupNote (st.active_notes.filter
      (fun p => decide (p.1 ∉ (stepA hands st.active_notes st.zones).removed))) f
      = some bd := by
    rw [lookupNote_filter_keep _ e3]
    exact hb
  have hkeys1 : ((st.active_notes.filter
      (fun p => decide (p.1 ∉ (stepA hands st.active_notes st.zones).removed))).map
        Prod.fst).Nodup :=
    hkeys.sublist ((List.filter_sublist _).map Prod.fst)
  have hfold := stepBHands_inv tf (fun s2 =>
      lookupNote s2.active f = some bd ∧ eventsFor f s2.events = [] ∧
      (s2.active.map Prod.fst).Nodup ∧ rectsOf s2.zones = rectsOf st.zones)
    hands 0
    { zones := (stepA hands st.active_notes st.zones).zones,
      active := st.active_notes.filter
        (fun p => decide (p.1 ∉ (stepA hands st.active_notes st.zones).removed)),
      events := [],
      processed := (stepA hands st.active_notes st.zones).processed }
    (fun i hand _ fname tip st2 hP2 =>
      claimFinger_sustain_inv tf hand _ fname tip f bd _ st2 hP2)
    ⟨hactive1, rfl, hkeys1, stepA_rectsOf hands st.active_notes st.zones⟩
  obtain ⟨hf1, hf2, hf3, hf4⟩ := hfold
  refine ⟨?_, hf1, hf3, hf4⟩
  have hsplit : (process_hands_data tf st hands).2
      = (stepA hands st.active_notes st.zones).events ++
        (stepBHands tf hands 0
          { zones := (stepA hands st.active_notes st.zones).zones,
            active := st.active_notes.filter
              (fun p => decide (p.1 ∉ (stepA hands st.active_notes st.zones).removed)),
            events := [],
            processed := (stepA hands st.active_notes st.zones).processed }).events := rfl
  rw [hsplit, eventsFor_append, e1, hf2, List.append_nil]

/-- C4: a claim episode produces exactly one `note_on`.  First half: whenever a
frame newly binds finger `f`, that frame's emitted calls for `f` are exactly
one `note_on` with the binding's note.  Second half: over any run of frames in
which the bound finger stays valid (hand present, extended, fingertip inside
its zone), no `note_on` for `f` is emitted at all, every call for `f` is
`pitch_bend` or `intensity_update`, and the binding survives unchanged. -/
theorem c4_claim_idempotence :
    (∀ (tf : List ℕ) (st : IMState) (hands : List Hand) (f : FingerId) (bd : Binding),
      (st.active_notes.map Prod.fst).Nodup →
      lookupNote st.active_notes f = none →
      lookupNote (process_hands_data tf st hands).1.active_notes f = some bd →
      ∃ v, eventsFor f (process_hands_data tf st hands).2
        = [AEvent.note_on bd.midi_note v f]) ∧
    (∀ (tf : List ℕ) (st : IMState) (frames : List (List Hand)) (f : FingerId) (bd : Binding),
      (st.active_notes.map Prod.fst).Nodup →
      lookupNote st.active_notes f = some bd →
      (∀ fr ∈ frames, bindingStatus fr st.zones f bd ≠ none) →
      noteOnsFor f (runFrames tf st frames).2 = [] ∧
      (∀ e ∈ eventsFor f (runFrames tf st frames).2, e.isModulation = true) ∧
      lookupNote (runFrames tf st frames).1.active_notes f = some bd) := by
  constructor
  · intro tf st hands f bd hkeys hun hclaimed
    have hraev : eventsFor f (stepA hands st.active_notes st.zones).events = [] := by
      unfold eventsFor
      apply List.filter_eq_nil_iff.mpr
      intro e he
      have h2 := stepA_events_finger hands st.active_notes st.zones e he
      have h3 : e.finger ≠ f := by
        intro hc
        exact keys_notMem_of_lookup_none hun (hc ▸ h2)
      simp [h3]
    have hproc : f ∉ (stepA hands st.active_notes st.zones).processed := by
      intro hc
      exact keys_notMem_of_lookup_none hun
        (stepA_processed_sub hands st.active_notes st.zones f hc)
    have hactive1 : lookupNote (st.active_notes.filter
        (fun p => decide (p.1 ∉ (stepA hands st.active_notes st.zones).removed))) f
        = none := lookupNote_filter_of_none hun _
    have hfold := stepBHands_inv tf (fun s2 =>
        (lookupNote s2.active f = none ∧ f ∉ s2.processed ∧ eventsFor f s2.events = []) ∨
        (∃ bd2 v, lookupNote s2.active f = some bd2 ∧
          eventsFor f s2.events = [AEvent.note_on bd2.midi_note v f]))
      hands 0
      { zones := (stepA hands st.active_notes st.zones).zones,
        active := st.active_notes.filter
          (fun p => decide (p.1 ∉ (stepA hands st.active_notes st.zones).removed)),
        events := [],
        processed := (stepA hands st.active_notes st.zones).processed }
      (fun i hand _ fname tip st2 hP2 =>
        claimFinger_claim_once tf hand _ fname tip f st2 hP2)
      (Or.inl ⟨hactive1, hproc, rfl⟩)
    have hsplit : (process_hands_data tf st hands).2
        = (stepA hands st.active_notes st.zones).events ++
          (stepBHands tf hands 0
            { zones := (stepA hands st.active_notes st.zones).zones,
              active := st.active_notes.filter
                (fun p => decide (p.1 ∉ (stepA hands st.active_notes st.zones).removed)),
              events := [],
              processed := (stepA hands st.active_notes st.zones).processed }).events := rfl
    rcases hfold with ⟨hn, -, -⟩ | ⟨bd2, v, hsome, hev⟩
    · exfalso
      have : lookupNote (process_hands_data tf st hands).1.active_notes f = none := hn
      rw [this] at hclaimed
      exact Option.noConfusion hclaimed
    · have hbd2 : bd2 = bd := by
        have h2 : lookupNote (process_hands_data tf st hands).1.active_notes f
            = some bd2 := hsome
        rw [h2] at hclaimed
        exact Option.some.inj hclaimed
      subst hbd2
      exact ⟨v, by rw [hsplit, eventsFor_append, hraev, hev, List.nil_append]⟩
  · intro tf st frames f bd hkeys hb hsus
    induction frames generalizing st with
    | nil =>
      refine ⟨rfl, ?_, hb⟩
      intro e he
      simp [eventsFor, runFrames] at he
    | cons fr rest ih =>
      have hfr := hsus fr (List.mem_cons_self _ _)
      cases hst : bindingStatus fr st.zones f bd with
      | none => exact absurd hst hfr
      | some xy =>
        obtain ⟨x, y⟩ := xy
        obtain ⟨e1, e2, e3, e4⟩ := frame_sustain tf st fr f bd x y hkeys hb hst
        have hsus' : ∀ fr2 ∈ rest,
            bindingStatus fr2 (process_hands_data tf st fr).1.zones f bd ≠ none := by
          intro fr2 hfr2
          rw [bindingStatus_congr e4]
          exact hsus fr2 (List.mem_cons_of_mem _ hfr2)
        obtain ⟨ih1, ih2, ih3⟩ := ih (process_hands_data tf st fr).1 e3 e2 hsus'
        have hrun : (runFrames tf st (fr :: rest)).2
            = (process_hands_data tf st fr).2 ++
              (runFrames tf (process_hands_data tf st fr).1 rest).2 := rfl
        have hrun1 : (runFrames tf st (fr :: rest)).1
            = (runFrames tf (process_hands_data tf st fr).1 rest).1 := rfl
        refine ⟨?_, ?_, by rw [hrun1]; exact ih3⟩
        · rw [hrun]
          unfold noteOnsFor
          rw [List.filter_append]
          rw [List.filter_eq_nil_iff.mpr ?_, List.nil_append]
          · unfold noteOnsFor at ih1
            exact ih1
          · intro e he
            by_cases hf : e.finger = f
            · have hmem : e ∈ eventsFor f (process_hands_data tf st fr).2 := by
                unfold eventsFor
                exact List.mem_filter.mpr ⟨he, by simp [hf]⟩
              rw [e1] at hmem
              rcases List.mem_cons.mp hmem with rfl | hmem2
              · simp [AEvent.isNoteOn]
              · have : e = AEvent.intensity_update
                    (calculate_continuous_intensity y (getZone st.zones bd.zoneIdx).rect)
                    f bd.midi_note := by simpa using hmem2
                rw [this]
                simp [AEvent.isNoteOn]
            · simp [hf]
        · intro e he
          rw [hrun] at he
          rw [eventsFor_append] at he
          rcases List.mem_append.mp he with h1 | h1
          · rw [e1] at h1
            rcases List.mem_cons.mp h1 with rfl | h2
            · rfl
            · have : e = AEvent.intensity_update
                  (calculate_continuous_intensity y (getZone st.zones bd.zoneIdx).rect)
                  f bd.midi_note := by simpa using h2
              rw [this]
              rfl
          · exact ih2 e h1

/-! ### C5: single ownership of a claimed zone -/

/-- C5: while a zone is Claimed by `f1` and `f1` keeps the claim this frame,
any other finger `f2` whose extended fingertip falls into that zone (as its
first containing zone) triggers no `note_on`, obtains no binding, and the
zone's state — owner and activation included — is unchanged by the frame. -/
theorem c5_single_ownership (tf : List ℕ) (st : IMState) (hands : List Hand)
    (f1 f2 : FingerId) (bd1 : Binding)
    (hkeys : (st.active_notes.map Prod.fst).Nodup)
    (hb1 : lookupNote st.active_notes f1 = some bd1)
    (hsus : bindingStatus hands st.zones f1 bd1 ≠ none)
    (huniq : ∀ p ∈ st.active_notes, p.2.zoneIdx = bd1.zoneIdx → p.1 = f1)
    (hactive : (getZone st.zones bd1.zoneIdx).is_active = true)
    (_hf2 : f2 ≠ f1)
    (hf2un : lookupNote st.active_notes f2 = none)
    (hf2zone : ∀ (hidx : ℕ) (hand : Hand), hands[hidx]? = some hand →
      handIdAt hidx hand = f2.1 →
      ∀ x y zc : ℚ, get_finger_tip_coordinate hand.landmarks f2.2 = some (x, y, zc) →
        ∃ z, firstContaining st.zones x y = some (bd1.zoneIdx, z)) :
    noteOnsFor f2 (process_hands_data tf st hands).2 = [] ∧
    lookupNote (process_hands_data tf st hands).1.active_notes f2 = none ∧
    getZone (process_hands_data tf st hands).1.zones bd1.zoneIdx
      = getZone st.zones bd1.zoneIdx := by
  have huniq2 : ∀ p ∈ st.active_notes, p.2.zoneIdx = bd1.zoneIdx →
      bindingStatus hands st.zones p.1 p.2 ≠ none := by
    intro p hp hz
    have hp1 := huniq p hp hz
    have hpe : p = (f1, bd1) := lookupNote_entry_eq hkeys hb1 hp hp1
    rw [hpe]
    exact hsus
  have hA_zone := stepA_zone_untouched hands st.active_notes st.zones bd1.zoneIdx huniq2
  have hA_rect := stepA_rectsOf hands st.active_notes st.zones
  have hA_noons : noteOnsFor f2 (stepA hands st.active_notes st.zones).events = [] := by
    unfold noteOnsFor
    apply List.filter_eq_nil_iff.mpr
    intro e he
    have h2 := stepA_no_note_on hands st.active_notes st.zones e he
    simp [h2]
  have hactive1 : lookupNote (st.active_notes.filter
      (fun p => decide (p.1 ∉ (stepA hands st.active_notes st.zones).removed))) f2
      = none := lookupNote_filter_of_none hf2un _
  have hfold := stepBHands_inv tf (fun s2 =>
      rectsOf s2.zones = rectsOf st.zones ∧
      getZone s2.zones bd1.zoneIdx = getZone st.zones bd1.zoneIdx ∧
      noteOnsFor f2 s2.events = [] ∧
      lookupNote s2.active f2 = none)
    hands 0
    { zones := (stepA hands st.active_notes st.zones).zones,
      active := st.active_notes.filter
        (fun p => decide (p.1 ∉ (stepA hands st.active_notes st.zones).removed)),
      events := [],
      processed := (stepA hands st.active_notes st.zones).processed }
    ?_ ⟨hA_rect, hA_zone, rfl, hactive1⟩
  · obtain ⟨hr, hg, hno, hlu⟩ := hfold
    have hsplit : (process_hands_data tf st hands).2
        = (stepA hands st.active_notes st.zones).events ++
          (stepBHands tf hands 0
            { zones := (stepA hands st.active_notes st.zones).zones,
              active := st.active_notes.filter
                (fun p => decide (p.1 ∉ (stepA hands st.active_notes st.zones).removed)),
              events := [],
              processed := (stepA hands st.active_notes st.zones).processed }).events := rfl
    refine ⟨?_, hlu, hg⟩
    rw [hsplit]
    unfold noteOnsFor at hA_noons hno ⊢
    rw [List.filter_append, hA_noons, hno, List.nil_append]
  · intro i hand hi fname tip st2 hP2
    obtain ⟨hr, hg, hno, hlu⟩ := hP2
    rcases claimFinger_cases tf hand (handIdAt (0 + i) hand) fname tip st2 with hsame |
      ⟨x, y, zc, zi', z, hproc, hnone, hco, hfc, hz, heq⟩
    · rw [hsame]
      exact ⟨hr, hg, hno, hlu⟩
    · obtain ⟨hlt, hel, hin⟩ := firstContaining_spec hfc
      have hzi' : ¬ (zi' = bd1.zoneIdx) := by
        intro hc
        have hze : getZone st2.zones zi' = z := getZone_of_getElem? hel
        rw [hc, hg] at hze
        have hzact : z.is_active = true := by rw [← hze]; exact hactive
        rw [hzact] at hz
        exact Bool.noConfusion hz
      have hfid : ¬ ((handIdAt (0 + i) hand, tip) = f2) := by
        intro hc
        have hhid : handIdAt i hand = f2.1 := by
          rw [show i = 0 + i from (Nat.zero_add i).symm]
          rw [show (handIdAt (0 + i) hand) = f2.1 from congrArg Prod.fst hc]
        have htip : tip = f2.2 := congrArg Prod.snd hc
        obtain ⟨zw, hzw⟩ := hf2zone i hand hi hhid x y zc (htip ▸ hco)
        have hcongr := firstContaining_congr hr x y
        rw [hfc, hzw] at hcongr
        simp at hcongr
        exact hzi' hcongr
      have hfid2 : ¬ ((handIdAt i hand, tip) = f2) := by
        have h0 := hfid
        rw [Nat.zero_add] at h0
        exact h0
      rw [heq]
      refine ⟨?_, ?_, ?_, ?_⟩
      · show rectsOf (st2.zones.set zi' (z.activate _)) = rectsOf st.zones
        rw [← hr]
        apply rectsOf_set_of_rect_eq
        rw [getZone_of_getElem? hel]
        rfl
      · show getZone (st2.zones.set zi' (z.activate _)) bd1.zoneIdx = _
        rw [getZone_set_ne hzi']
        exact hg
      · show noteOnsFor f2 (st2.events ++ [AEvent.note_on _ _ _]) = []
        unfold noteOnsFor at hno ⊢
        rw [List.filter_append, hno, List.nil_append]
        simp [List.filter, AEvent.isNoteOn, AEvent.finger, hfid2]
      · show lookupNote (st2.active ++ [((handIdAt (0 + i) hand, tip), _)]) f2 = none
        rw [lookupNote_append_none hlu, lookupNote_cons_ne hfid]
        rfl

/-! ### Concrete-scenario witnesses for C3, C4 and C5 -/

theorem bindingStatusW :
    bindingStatus [handW] stW.zones ("Right", 8) ⟨0, 50, 60⟩ = some (50, 50) := by
  have hin : (getZone stW.zones 0).is_point_inside 50 50 = true := by
    rw [show (getZone stW.zones 0).is_point_inside 50 50
        = rect_contains (0, 0, 100, 100) 50 50 from rfl]
    unfold rect_contains
    rw [decide_eq_true_eq]
    norm_num
  rw [show bindingStatus [handW] stW.zones ("Right", 8) (⟨0, 50, 60⟩ : Binding)
      = (if (getZone stW.zones 0).is_point_inside 50 50
         then some ((50 : ℚ), (50 : ℚ)) else none) from rfl]
  simp [hin]

/-- C3 witness: the release at a concrete claimed state when the hand
disappears (`hands = []`). -/
theorem c3_witness :
    (stW.active_notes.map Prod.fst).Nodup ∧
    lookupNote stW.active_notes ("Right", 8) = some ⟨0, 50, 60⟩ ∧
    bindingStatus [] stW.zones ("Right", 8) ⟨0, 50, 60⟩ = none ∧
    noteOffsFor ("Right", 8) (process_hands_data allTipsW stW []).2
      = [AEvent.note_off 60 ("Right", 8)] :=
  ⟨by decide, rfl, rfl,
   (c3_release_completeness allTipsW stW [] ("Right", 8) ⟨0, 50, 60⟩
     (by decide) rfl rfl).1⟩

/-- C4 witness: the sustain half applied to one concrete frame in which the
bound right index finger stays extended inside its zone. -/
theorem c4_witness :
    (stW.active_notes.map Prod.fst).Nodup ∧
    lookupNote stW.active_notes ("Right", 8) = some ⟨0, 50, 60⟩ ∧
    (∀ fr ∈ [[handW]], bindingStatus fr stW.zones ("Right", 8) ⟨0, 50, 60⟩ ≠ none) ∧
    (noteOnsFor ("Right", 8) (runFrames allTipsW stW [[handW]]).2 = [] ∧
     (∀ e ∈ eventsFor ("Right", 8) (runFrames allTipsW stW [[handW]]).2,
       e.isModulation = true) ∧
     lookupNote (runFrames allTipsW stW [[handW]]).1.active_notes ("Right", 8)
       = some ⟨0, 50, 60⟩) := by
  have hfr : ∀ fr ∈ [[handW]],
      bindingStatus fr stW.zones ("Right", 8) (⟨0, 50, 60⟩ : Binding) ≠ none := by
    intro fr hf
    rw [List.mem_singleton] at hf
    rw [hf, bindingStatusW]
    exact fun h => Option.noConfusion h
  exact ⟨by decide, rfl, hfr,
    c4_claim_idempotence.2 allTipsW stW [[handW]] ("Right", 8) ⟨0, 50, 60⟩
      (by decide) rfl hfr⟩

/-- C5 witness: with the zone claimed and sustained by the right index finger,
a frame changes nothing for the (absent) left index finger. -/
theorem c5_witness :
    (stW.active_notes.map Prod.fst).Nodup ∧
    lookupNote stW.active_notes ("Right", 8) = some ⟨0, 50, 60⟩ ∧
    bindingStatus [handW] stW.zones ("Right", 8) ⟨0, 50, 60⟩ ≠ none ∧
    (∀ p ∈ stW.active_notes, p.2.zoneIdx = 0 → p.1 = ("Right", 8)) ∧
    (getZone stW.zones 0).is_active = true ∧
    (("Left", 8) : FingerId) ≠ ("Right", 8) ∧
    lookupNote stW.active_notes ("Left", 8) = none ∧
    (noteOnsFor ("Left", 8) (process_hands_data allTipsW stW [handW]).2 = [] ∧
     lookupNote (process_hands_data allTipsW stW [handW]).1.active_notes ("Left", 8) = none ∧
     getZone (process_hands_data allTipsW stW [handW]).1.zones 0 = getZone stW.zones 0) := by
  have hkeys : (stW.active_notes.map Prod.fst).Nodup := by decide
  have hb1 : lookupNote stW.active_notes ("Right", 8) = some (⟨0, 50, 60⟩ : Binding) := rfl
  have hsus : bindingStatus [handW] stW.zones ("Right", 8) (⟨0, 50, 60⟩ : Binding) ≠ none := by
    rw [bindingStatusW]
    exact fun h => Option.noConfusion h
  have huniq : ∀ p ∈ stW.active_notes,
      p.2.zoneIdx = (Binding.mk 0 50 60).zoneIdx → p.1 = ("Right", 8) := by
    intro p hp _
    rw [show stW.active_notes = [((("Right", 8) : FingerId), (⟨0, 50, 60⟩ : Binding))] from rfl,
      List.mem_singleton] at hp
    rw [hp]
  have hf2z : ∀ (hidx : ℕ) (hand : Hand), ([handW])[hidx]? = some hand →
      handIdAt hidx hand = ((("Left", 8) : FingerId)).1 →
      ∀ x y zc : ℚ,
        get_finger_tip_coordinate hand.landmarks ((("Left", 8) : FingerId)).2
          = some (x, y, zc) →
        ∃ z, firstContaining stW.zones x y = some ((Binding.mk 0 50 60).zoneIdx, z) := by
    intro hidx hand hh hid
    exfalso
    match hidx with
    | 0 =>
      rw [show ([handW])[0]? = some handW from rfl] at hh
      have hhand : handW = hand := Option.some.inj hh
      rw [← hhand] at hid
      rw [show handIdAt 0 handW = "Right" from rfl] at hid
      exact absurd hid (by decide)
    | (n + 1) =>
      rw [show ([handW])[n + 1]? = (none : Option Hand) by
        rw [List.getElem?_eq_none]; simp] at hh
      exact Option.noConfusion hh
  exact ⟨hkeys, hb1, hsus, huniq, rfl, by decide, rfl,
    c5_single_ownership allTipsW stW [handW] ("Right", 8) ("Left", 8) ⟨0, 50, 60⟩
      hkeys hb1 hsus huniq rfl (by decide) rfl hf2z⟩
